import Mathlib

/-!
# tortilla: a layered error stack (Go package `tortilla`, file `wrap.go`)

A shallow embedding of `wrap.go` together with the part of the Go platform it
plugs into (`errors.Is`, `strings.TrimRight`, `strings.TrimSpace`, and the
execution by `text/template` of the template `stackPrettyPrintTpl`).

## Memory model

`Tortilla` is a Go struct with one field, `layers []layer`: a slice header that
points to a backing array.  `Tortilla.Add` assigns through that header
(`layers[0].chain = chain`), so two `Tortilla` values can observe each other.
The embedding therefore keeps the backing arrays of `[]layer` slices in an
explicit `Heap`, and every operation takes the heap and returns the new one.

* A `[]layer` value is `none` (the nil slice) or `some a`: the slice over the
  whole backing array at address `a`.  The package never re-slices, so length
  and capacity are those of the array.
* `[]error` chains are kept as plain lists: a chain array is only ever read
  after it has been built (`Add` builds a fresh one and never writes into an
  existing one), so sharing between chains cannot be observed.
* Error values are non-nil (the package documents no behaviour for nil).
* Go strings are taken to be valid UTF-8 and are kept as sequences of Unicode
  characters.
-/

namespace tortilla

/-- The two ways a run of the embedded code can fail to return a value: the Go
runtime fault of indexing an empty slice, and exhaustion of the recursion budget
the embedding gives to calls that go through the `error` interface. -/
inductive Fault where
  | indexOutOfRange
  | outOfFuel
  deriving DecidableEq, Repr

/-- The Go type `Tortilla` (`struct { layers []layer }`): the slice header of
its layers, `none` for the nil slice of the zero value `Tortilla{}`. -/
structure Tortilla where
  layers : Option Nat
  deriving DecidableEq, Repr

/-- Non-nil values of the Go interface `error`, by dynamic type and method set:
* `errorString p s`: the pointer `p` to an `errors.errorString` with text `s`
  (what `errors.New(s)` returns; two calls give two different pointers);
* `wrapError p msg err`: the pointer `p` to an error with message `msg` and an
  `Unwrap() error` method returning `err` (what `fmt.Errorf` with `%w` returns);
* `tortilla t`: a `Tortilla` value;
* `valueError p msg`: a value, with message `msg`, of an error type that is not
  comparable (a slice type, or a struct with a slice field) and has no method but
  `Error()`; `p` tells such values apart;
* `isError p msg sentinel`: the comparable value `p` (a pointer or a number) of an
  error type with message `msg` and a method `Is(target error) bool` that answers
  true exactly for the target `sentinel` (as `syscall.Errno` does for
  `fs.ErrPermission`), and no `Unwrap`;
* `joinError p msg err1 err2`: the pointer `p` to an error with message `msg` and
  an `Unwrap() []error` method returning `err1` and `err2`.
Two pointer errors are the same Go value when they are equal as terms. -/
inductive Err where
  | errorString (p : Nat) (s : String)
  | wrapError (p : Nat) (msg : String) (err : Err)
  | tortilla (t : Tortilla)
  | valueError (p : Nat) (msg : String)
  | isError (p : Nat) (msg : String) (sentinel : Err)
  | joinError (p : Nat) (msg : String) (err1 err2 : Err)
  deriving DecidableEq, Repr

/-- The Go type `layer` (`struct { target error; chain []error }`). -/
structure layer where
  target : Err
  chain : List Err
  deriving DecidableEq, Repr

/-- The backing arrays of all `[]layer` slices, by address. -/
structure Heap where
  arrays : List (List layer)
  deriving DecidableEq, Repr

/-- Content of the backing array at an address (empty when nothing is there). -/
def Heap.read (h : Heap) (a : Nat) : List layer :=
  h.arrays.getD a []

/-- Allocate a new backing array with the given content; returns its address. -/
def Heap.alloc (h : Heap) (ls : List layer) : Heap × Nat :=
  (⟨h.arrays ++ [ls]⟩, h.arrays.length)

/-- Overwrite the content of the backing array at an address. -/
def Heap.write (h : Heap) (a : Nat) (ls : List layer) : Heap :=
  ⟨h.arrays.set a ls⟩

/-- The elements of `t.layers` as the heap currently holds them. -/
def Tortilla.layersIn (h : Heap) (t : Tortilla) : List layer :=
  match t.layers with
  | none => []
  | some a => h.read a

/-! ## Platform: `strings` -/

/-- Go `unicode.IsSpace`. -/
def isSpace (c : Char) : Bool :=
  let n := c.toNat
  n == 0x09 || n == 0x0A || n == 0x0B || n == 0x0C || n == 0x0D || n == 0x20 ||
  n == 0x85 || n == 0xA0 || n == 0x1680 || (0x2000 ≤ n && n ≤ 0x200A) ||
  n == 0x2028 || n == 0x2029 || n == 0x202F || n == 0x205F || n == 0x3000

/-- Go `strings.TrimRight(s, cutset)`: drop every trailing character that is in
the cutset. -/
def TrimRight (s : String) (cutset : String) : String :=
  ⟨(s.data.reverse.dropWhile (fun c => decide (c ∈ cutset.data))).reverse⟩

/-- Go `strings.TrimSpace(s)`: drop leading and trailing white space. -/
def TrimSpace (s : String) : String :=
  ⟨((s.data.dropWhile isSpace).reverse.dropWhile isSpace).reverse⟩

/-! ## `wrap.go` -/

/-- Go `buildChainMsg`; `E` is the method `Error()` of the `error` interface. -/
def buildChainMsg (E : Err → Except Fault String) (chain : List Err) :
    Except Fault String := do
  let msg ← chain.foldlM (fun msg err => do return msg ++ (← E err) ++ ", ") ""
  return TrimRight msg ", "

/-- Go `buildLayerMsg`; `E` is the method `Error()` of the `error` interface. -/
def buildLayerMsg (E : Err → Except Fault String) (l : layer) :
    Except Fault String := do
  let msg := (← E l.target) ++ ": "
  let msg := msg ++ (← buildChainMsg E l.chain)
  let msg := TrimRight msg ": "
  let msg := msg ++ ". "
  return msg

/-- Body of Go `Tortilla.Error`, over the layers read from the heap; `E` is the
method `Error()` of the `error` interface. -/
def flatten (E : Err → Except Fault String) (layers : List layer) :
    Except Fault String := do
  let msg ← layers.foldlM (fun msg l => do return msg ++ (← buildLayerMsg E l)) ""
  return TrimSpace msg

/-- The method `Error()` of the `error` interface, by dynamic type.  A call that
lands in `Tortilla.Error` spends one unit of the budget: a `Tortilla` can hold
`Tortilla`s in its layers, and the heap can even hold one that contains itself. -/
def Err.Error (h : Heap) : Nat → Err → Except Fault String
  | _, .errorString _ s => .ok s
  | _, .wrapError _ msg _ => .ok msg
  | _, .valueError _ msg => .ok msg
  | _, .isError _ msg _ => .ok msg
  | _, .joinError _ msg _ _ => .ok msg
  | 0, .tortilla _ => .error .outOfFuel
  | n + 1, .tortilla t => flatten (Err.Error h n) (t.layersIn h)

/-- Go `Tortilla.Error`, with a budget `n` for the nested `Error()` calls. -/
def Tortilla.Error (h : Heap) (n : Nat) (t : Tortilla) : Except Fault String :=
  flatten (Err.Error h n) (t.layersIn h)

/-- Go `Tortilla.Unwrap`: `t.layers[0].target`. -/
def Tortilla.Unwrap (h : Heap) (t : Tortilla) : Except Fault Err :=
  match t.layersIn h with
  | [] => .error .indexOutOfRange
  | l :: _ => .ok l.target

/-- Go `Tortilla.appendLayer`.  `layers` is a fresh one-element slice and
`append(layers, t.layers...)` either keeps it (nothing to append) or moves it to
a larger fresh array: in both cases the result is a new backing array holding
the new layer followed by copies of the layers of `t`. -/
def Tortilla.appendLayer (h : Heap) (t : Tortilla) (target : Err) (chain : List Err) :
    Heap × Tortilla :=
  let r := h.alloc ({ target := target, chain := chain } :: t.layersIn h)
  (r.1, { layers := some r.2 })

/-- Go `Tortilla.Wrap`. -/
def Tortilla.Wrap (h : Heap) (t : Tortilla) (target : Err) : Heap × Tortilla :=
  t.appendLayer h target []

/-- Go `Tortilla.Add`.  `layers := t.layers` copies the slice header only, so
`layers[0].chain = chain` writes into the backing array of `t`. -/
def Tortilla.Add (h : Heap) (t : Tortilla) (err : Err) : Except Fault (Heap × Tortilla) :=
  match t.layers with
  | none => .error .indexOutOfRange
  | some a =>
    match h.read a with
    | [] => .error .indexOutOfRange
    | l0 :: rest =>
      let chain := [err] ++ l0.chain
      let layers := t.layers
      .ok (h.write a ({ l0 with chain := chain } :: rest), { layers := layers })

/-- Go `New`: the type assertion `err.(Tortilla)` succeeds exactly on the
dynamic type `Tortilla`. -/
def New (h : Heap) (err : Err) : Heap × Tortilla :=
  match err with
  | .tortilla t => (h, t)
  | _ =>
    let r := h.alloc [{ target := err, chain := [] }]
    (r.1, { layers := some r.2 })

/-- A Go `map[string][]string`, kept as the list of its entries in the order in
which `range` of `text/template` visits them (ascending keys).  A map literal
with one key is a one-element list. -/
abbrev StringsMap := List (String × List String)

/-- The Go type `Stack` (`[]map[string][]string`).  A `Stack` is built fresh by
`RollOut` and only read afterwards, so it is kept as a plain list. -/
abbrev Stack := List StringsMap

/-- Go `Tortilla.RollOut`, with a budget `n` for the `Error()` calls. -/
def Tortilla.RollOut (h : Heap) (n : Nat) (t : Tortilla) : Except Fault Stack := do
  let s ← (t.layersIn h).foldlM (fun (s : Stack) l => do
    let c ← l.chain.foldlM (fun (c : List String) e => do
      return c ++ [← Err.Error h n e]) []
    let layer : StringsMap := [(← Err.Error h n l.target, c)]
    return s ++ [layer]) []
  return s

/-- The innermost loop of `stackPrettyPrintTpl`,
`{{range $chain}}<newline>....{{.}}{{end}}`: a newline, four dots and the entry,
for each chain entry. -/
def execChain : List String → String
  | [] => ""
  | e :: es => "\n...." ++ e ++ execChain es

/-- The middle loop of `stackPrettyPrintTpl`,
`{{range $target, $chain := .}}{{$target}}:` chain loop `<newline>{{end}}`, over
the entries of one map. -/
def execMap : StringsMap → String
  | [] => ""
  | (target, chain) :: rest => target ++ ":" ++ execChain chain ++ "\n" ++ execMap rest

/-- The outer loop of `stackPrettyPrintTpl`, `{{- range $layer := .}}` map loop
`{{end}}`; the newline that opens the template text is removed by `{{-`. -/
def execStack : Stack → String
  | [] => ""
  | l :: rest => execMap l ++ execStack rest

/-- Go `parsedTpl.Execute(output, s)`: the text written to the buffer.  With a
`Stack` as data and a `bytes.Buffer` as output no step of the template can fail. -/
def parsedTplExecute (s : Stack) : Except String String :=
  .ok (execStack s)

/-- Go `Stack.PrettyPrint`. -/
def Stack.PrettyPrint (s : Stack) : String :=
  match parsedTplExecute s with
  | .error _ => "Pretty print error"
  | .ok output => TrimSpace output

/-- One method call in a chain of calls on a `Tortilla`: `.Wrap(target)` or
`.Add(err)`. -/
inductive Call where
  | Wrap (target : Err)
  | Add (err : Err)
  deriving DecidableEq, Repr

/-- A chain of calls `t.c1(..).c2(..)...` run from the heap `h` on the value `t`:
each call is made on the value the previous one returned. -/
def runCalls : List Call → Heap → Tortilla → Except Fault (Heap × Tortilla)
  | [], h, t => .ok (h, t)
  | .Wrap target :: cs, h, t => runCalls cs (t.Wrap h target).1 (t.Wrap h target).2
  | .Add err :: cs, h, t =>
    match t.Add h err with
    | .error f => .error f
    | .ok r => runCalls cs r.1 r.2

/-- No `Tortilla` inside the error points at or above the address `n`. -/
def Err.pointsBelow (n : Nat) : Err → Bool
  | .errorString _ _ => true
  | .valueError _ _ => true
  | .wrapError _ _ err => err.pointsBelow n
  | .isError _ _ sentinel => sentinel.pointsBelow n
  | .joinError _ _ err1 err2 => err1.pointsBelow n && err2.pointsBelow n
  | .tortilla t =>
    match t.layers with
    | none => true
    | some a => decide (a < n)

/-- No `Tortilla` inside the layer points at or above the address `n`. -/
def layer.pointsBelow (n : Nat) (l : layer) : Bool :=
  l.target.pointsBelow n && l.chain.all (Err.pointsBelow n)

/-- The heap has no dangling pointer: every `Tortilla` stored in a backing array
points to an allocated array.  Go guarantees this of every heap. -/
def Heap.closed (h : Heap) : Bool :=
  h.arrays.all fun ls => ls.all (layer.pointsBelow h.arrays.length)

/-- The layers of the value are nil or an allocated backing array.  Go guarantees
this of every value. -/
def Tortilla.valid (h : Heap) (t : Tortilla) : Bool :=
  match t.layers with
  | none => true
  | some a => decide (a < h.arrays.length)

/-! ## Platform: `errors.Is` -/

/-- Go `reflectlite.TypeOf(target).Comparable()`: pointers are comparable, the
struct `Tortilla` is not (it has a slice field), and neither is a `valueError`. -/
def Err.comparable : Err → Bool
  | .tortilla _ => false
  | .valueError _ _ => false
  | _ => true

/-- The method `Is(target error) bool` of an error; false when the type of the
error has no such method (only `isError` has one). -/
def Err.Is : Err → Err → Bool
  | .isError _ _ sentinel, target => decide (target = sentinel)
  | _, _ => false

/-- The type of the error has an `Is(error) bool` method. -/
def Err.hasIs : Err → Bool
  | .isError _ _ _ => true
  | _ => false

/-- The type of the error has an `Unwrap` method, of either form. -/
def Err.hasUnwrap : Err → Bool
  | .wrapError _ _ _ => true
  | .joinError _ _ _ _ => true
  | .tortilla _ => true
  | _ => false

/-- Go `errors.is`: the loop of `errors.Is`, one unit of budget per iteration and
per call on an element of an `Unwrap() []error`.  In order: the comparison
`err == target` when the target type is comparable, the `Is` method of `err`,
then `Unwrap() error` (`Tortilla`, `wrapError`) or `Unwrap() []error`
(`joinError`); an error with neither `Unwrap` ends the walk with false. -/
def errors.is (h : Heap) (target : Err) (targetComparable : Bool) :
    Nat → Err → Except Fault Bool
  | 0, _ => .error .outOfFuel
  | n + 1, err =>
    if targetComparable && decide (err = target) then .ok true
    else if err.Is target then .ok true
    else
      match err with
      | .errorString _ _ => .ok false
      | .valueError _ _ => .ok false
      | .isError _ _ _ => .ok false
      | .wrapError _ _ inner => errors.is h target targetComparable n inner
      | .joinError _ _ err1 err2 =>
        match errors.is h target targetComparable n err1 with
        | .error f => .error f
        | .ok true => .ok true
        | .ok false => errors.is h target targetComparable n err2
      | .tortilla t =>
        match t.Unwrap h with
        | .error f => .error f
        | .ok e => errors.is h target targetComparable n e

/-- Go `errors.Is(err, target)` for non-nil `err` and `target`. -/
def errors.Is (h : Heap) (n : Nat) (err target : Err) : Except Fault Bool :=
  errors.is h target target.comparable n err

/-! ## Texts: the vocabulary of the statements about `Error` and `PrettyPrint` -/

/-- The strings one after the other, each followed by the separator: what a loop
`msg += x + sep` builds. -/
def catSep (sep : String) : List String → String
  | [] => ""
  | m :: ms => m ++ sep ++ catSep sep ms

/-- The string is not empty and its first character is outside the class `p`. -/
def startsOutside (p : Char → Bool) (s : String) : Bool :=
  match s.data.head? with
  | some c => !p c
  | none => false

/-- The string is not empty and its last character is outside the class `p`. -/
def endsOutside (p : Char → Bool) (s : String) : Bool :=
  match s.data.getLast? with
  | some c => !p c
  | none => false

/-- The string begins with a character of the class `p`. -/
def beginsWith (p : Char → Bool) (s : String) : Bool :=
  match s.data.head? with
  | some c => p c
  | none => false

/-- The string ends with a character of the class `p`. -/
def endsWith (p : Char → Bool) (s : String) : Bool :=
  match s.data.getLast? with
  | some c => p c
  | none => false

/-- A colon or a space: the cutset of the `TrimRight` in `buildLayerMsg`. -/
def isColonOrSpace (c : Char) : Bool :=
  c == ':' || c == ' '

/-- White space, a colon or a comma. -/
def isEdgeChar (c : Char) : Bool :=
  isSpace c || c == ':' || c == ','

/-- A message that is not empty and neither begins nor ends with white space, a
colon or a comma. -/
def goodMsg (m : String) : Bool :=
  startsOutside isEdgeChar m && endsOutside isEdgeChar m

/-- The text of one layer: the target message alone when the chain is empty,
otherwise the target message, a colon and a space, and the chain messages
joined by a comma and a space. -/
def layerText (target : String) (chain : List String) : String :=
  if chain = [] then target else target ++ ": " ++ ", ".intercalate chain

/-- The reference `Flatten` of the specification, over the message texts of the
layers (target message, chain messages), front layer first: each layer gives
its target message, then, only when its chain is not empty, a colon, a space and
the chain messages joined by a comma and a space, then a full stop and a space;
the texts are concatenated and white space is trimmed from both ends. -/
def FlattenSpec (layers : List (String × List String)) : String :=
  TrimSpace (String.join (layers.map fun l =>
    l.1 ++ (if l.2 = [] then "" else ": " ++ ", ".intercalate l.2) ++ ". "))

/-- The lines of one mapping: for each entry the line of the key followed by a
colon, then one line of four dots and the text for each chain text. -/
def mapLines : StringsMap → List String
  | [] => []
  | (target, chain) :: rest =>
    (target ++ ":") :: (chain.map fun e => "...." ++ e) ++ mapLines rest

/-- The lines of a rendered stack: the lines of its mappings, in order. -/
def stackLines : Stack → List String
  | [] => []
  | l :: rest => mapLines l ++ stackLines rest

/-- A text that neither begins nor ends with white space (it may be empty). -/
def trimmedText (x : String) : Bool :=
  !beginsWith isSpace x && !endsWith isSpace x

/-- Every key and every chain text of the rendered stack is a trimmed text. -/
def trimmedTexts (s : Stack) : Bool :=
  s.all fun l => l.all fun e => trimmedText e.1 && e.2.all trimmedText

/-- Every mapping of the rendered stack has exactly one entry. -/
def singleEntries (s : Stack) : Bool :=
  s.all fun l => l.length == 1

/-- The newline character. -/
def isNewline (c : Char) : Bool :=
  c == '\n'

/-- The heap before any allocation. -/
def Heap.empty : Heap := ⟨[]⟩

/-! ## Values of `wrap_test.go` -/

/-- The error `errors.New("initial error")` of the tests. -/
def initialError : Err := .errorString 1 "initial error"

/-- The error `errors.New("second")` of `TestItAddsErrorsWithoutWrapping`. -/
def second : Err := .errorString 2 "second"

/-- The error `errors.New("wrapping error")` of `TestItWrapsAnError`. -/
def wrappedWith : Err := .errorString 3 "wrapping error"

/-- A sentinel error such as `fs.ErrPermission`. -/
def errPermission : Err := .errorString 10 "permission denied"

/-- An error such as `syscall.EACCES`: it wraps nothing, and its `Is` method
answers true for the sentinel `errPermission`. -/
def eacces : Err := .isError 11 "permission denied" errPermission

/-- A plain error of a type that is not comparable, such as a value of
`type manyErrors []string` with an `Error()` method. -/
def manyErrors : Err := .valueError 12 "many errors"

/-- The heap and value after `New(errPermission)`. -/
def tPermission : Heap × Tortilla := New Heap.empty errPermission

/-- The heap and value after `t := New(err)` with `err` the initial error. -/
def tInitial : Heap × Tortilla := New Heap.empty initialError

/-- The heap and value after `w := New(errors.New("wrapping error"))`, run after
`tInitial`. -/
def tWrapping : Heap × Tortilla := New tInitial.1 wrappedWith

/-- The heap and value after `t.Wrap(w)` where `w` is the `Tortilla` of
`tWrapping` passed as an `error`. -/
def tWrappedWithTortilla : Heap × Tortilla :=
  tInitial.2.Wrap tWrapping.1 (.tortilla tWrapping.2)

/-- The message of an error that is not a `Tortilla` (what its `Error()` returns,
whatever the heap). -/
def Err.msg : Err → String
  | .errorString _ s => s
  | .wrapError _ m _ => m
  | .valueError _ m => m
  | .isError _ m _ => m
  | .joinError _ m _ _ => m
  | .tortilla _ => ""

/-- The calls of `TestItCanBeRolledOut`:
`New(first).Wrap(second).Add(third).Add(fourth).Wrap(fifth).Wrap(sixth).Add(seventh)`. -/
def rolledOutCalls : Except Fault (Heap × Tortilla) := do
  let r := New Heap.empty (.errorString 1 "first")
  let r := r.2.Wrap r.1 (.errorString 2 "second")
  let r ← r.2.Add r.1 (.errorString 3 "third")
  let r ← r.2.Add r.1 (.errorString 4 "fourth")
  let r := r.2.Wrap r.1 (.errorString 5 "fifth")
  let r := r.2.Wrap r.1 (.errorString 6 "sixth")
  r.2.Add r.1 (.errorString 7 "seventh")

/-- The heap and value the calls of `TestItCanBeRolledOut` end with. -/
def tRolledOut : Heap × Tortilla :=
  match rolledOutCalls with
  | .ok r => r
  | .error _ => (Heap.empty, { layers := none })

/-- The heap and value after `s := New(err); s = s.Add(s)`, with `err` the
initial error: the value is added to itself as an error. -/
def tSelfAdded : Heap × Tortilla :=
  match tInitial.2.Add tInitial.1 (.tortilla tInitial.2) with
  | .ok r => r
  | .error _ => tInitial

/-- The heap and value after `s := New(err); s.Add(s).Add(second)`. -/
def tSelfAddedTwice : Heap × Tortilla :=
  match tSelfAdded.2.Add tSelfAdded.1 second with
  | .ok r => r
  | .error _ => tSelfAdded

/-- The `Stack` that `RollOut` gives for `New(err).Wrap(wrappedWith)` of
`TestItWrapsAnError`. -/
def wrappedStack : Stack :=
  [[("wrapping error", [])], [("initial error", [])]]

/-- The `Stack` expected by `TestItCanBeRolledOut`. -/
def expectedStack : Stack :=
  [[("sixth", ["seventh"])], [("fifth", [])], [("second", ["fourth", "third"])],
    [("first", [])]]

end tortilla

namespace tortilla

/-! ## Heap lemmas -/

theorem Heap.read_alloc_new (h : Heap) (ls : List layer) :
    (h.alloc ls).1.read (h.alloc ls).2 = ls := by
  simp [Heap.alloc, Heap.read, List.getD_eq_getElem?_getD]

theorem Heap.read_alloc_old (h : Heap) (ls : List layer) (a : Nat)
    (ha : a < h.arrays.length) : (h.alloc ls).1.read a = h.read a := by
  simp [Heap.alloc, Heap.read, List.getD_eq_getElem?_getD, List.getElem?_append_left ha]

theorem Heap.read_write_same (h : Heap) (a : Nat) (ls : List layer)
    (ha : a < h.arrays.length) : (h.write a ls).read a = ls := by
  simp [Heap.write, Heap.read, List.getD_eq_getElem?_getD, ha]

theorem Heap.read_write_other (h : Heap) (a b : Nat) (ls : List layer)
    (hab : a ≠ b) : (h.write a ls).read b = h.read b := by
  simp [Heap.write, Heap.read, List.getD_eq_getElem?_getD, List.getElem?_set_ne hab]

theorem Heap.lt_of_read_ne_nil (h : Heap) (a : Nat) (hr : h.read a ≠ []) :
    a < h.arrays.length := by
  by_contra hlt
  apply hr
  simp [Heap.read, List.getD_eq_getElem?_getD, List.getElem?_eq_none (Nat.le_of_not_lt hlt)]

end tortilla

namespace tortilla

/-! ## What `Add` does to the heap -/

/-- `Add` on a value with at least one layer returns. -/
theorem Tortilla.Add_returns (h : Heap) (s : Tortilla) (a : Err) (l0 : layer)
    (rest : List layer) (hs : s.layersIn h = l0 :: rest) :
    ∃ p, s.layers = some p ∧ h.read p = l0 :: rest ∧
      s.Add h a =
        .ok (h.write p ({ target := l0.target, chain := a :: l0.chain } :: rest), s) := by
  obtain ⟨ls⟩ := s
  cases ls with
  | none => simp [Tortilla.layersIn] at hs
  | some p =>
    have hr : h.read p = l0 :: rest := by simpa [Tortilla.layersIn] using hs
    exact ⟨p, rfl, hr, by simp [Tortilla.Add, hr]⟩

/-- The write made by `Add` leaves the front target of every array in place. -/
theorem Tortilla.Unwrap_write_chain (h : Heap) (p : Nat) (l0 : layer) (rest : List layer)
    (c : List Err) (hr : h.read p = l0 :: rest) (t : Tortilla) :
    t.Unwrap (h.write p ({ target := l0.target, chain := c } :: rest)) = t.Unwrap h := by
  obtain ⟨ls⟩ := t
  cases ls with
  | none => rfl
  | some q =>
    by_cases hq : p = q
    · subst hq
      have hp : p < h.arrays.length := h.lt_of_read_ne_nil p (by simp [hr])
      simp [Tortilla.Unwrap, Tortilla.layersIn, Heap.read_write_same h p _ hp, hr]
    · simp [Tortilla.Unwrap, Tortilla.layersIn, Heap.read_write_other h p q _ hq]

/-! ## `errors.Is` reads front targets only -/

theorem errors.is_congr (h h' : Heap) (target : Err) (c : Bool)
    (hU : ∀ t : Tortilla, t.Unwrap h' = t.Unwrap h) :
    ∀ (n : Nat) (err : Err), errors.is h' target c n err = errors.is h target c n err := by
  intro n
  induction n with
  | zero => intro err; rfl
  | succ n ih =>
    intro err
    cases err <;> simp [errors.is, hU, ih]

/-- First iteration of the loop on a `Tortilla`: it is never equal to a comparable
target, so the loop goes on with what `Unwrap` returns. -/
theorem errors.is_tortilla (h : Heap) (target : Err) (n : Nat) (t : Tortilla) :
    errors.is h target target.comparable (n + 1) (.tortilla t) =
      match t.Unwrap h with
      | .error f => .error f
      | .ok e => errors.is h target target.comparable n e := by
  cases target <;> simp [errors.is, Err.comparable, Err.Is]

theorem Tortilla.Unwrap_Wrap (h : Heap) (s : Tortilla) (w : Err) :
    (s.Wrap h w).2.Unwrap (s.Wrap h w).1 = .ok w := by
  simp [Tortilla.Unwrap, Tortilla.Wrap, Tortilla.appendLayer, Tortilla.layersIn,
    Heap.read_alloc_new]

theorem layersIn_New (h : Heap) (e : Err) (he : ∀ t, e ≠ .tortilla t) :
    (New h e).2.layersIn (New h e).1 = [{ target := e, chain := [] }] := by
  cases e with
  | tortilla t => exact absurd rfl (he t)
  | _ => simp [New, Tortilla.layersIn, Heap.read_alloc_new]

end tortilla

namespace tortilla

/-! ## Construction: `Wrap`, `Add`, `New` -/

/-- C1: for every `Tortilla` s and every error w, the layers of `Wrap(s, w)` are
one new front layer with target w and an empty chain, followed by the layers of
s in their order, targets and chains unchanged. -/
theorem Wrap_layers (h : Heap) (s : Tortilla) (w : Err) :
    (s.Wrap h w).2.layersIn (s.Wrap h w).1 =
      { target := w, chain := [] } :: s.layersIn h := by
  simp [Tortilla.Wrap, Tortilla.appendLayer, Tortilla.layersIn, Heap.read_alloc_new]

/-- C2: for every `Tortilla` s with at least one layer and every error a,
`Add(s, a)` returns a value with as many layers as s, whose front layer keeps the
front target of s and has the chain a followed by the previous front chain, and
whose other layers are those of s at the same positions. -/
theorem Add_layers (h : Heap) (s : Tortilla) (a : Err) (hs : s.layersIn h ≠ []) :
    ∃ h' s' l0 rest, s.layersIn h = l0 :: rest ∧ s.Add h a = .ok (h', s') ∧
      s'.layersIn h' = { target := l0.target, chain := a :: l0.chain } :: rest ∧
      (s'.layersIn h').length = (s.layersIn h).length := by
  cases hl : s.layersIn h with
  | nil => exact absurd hl hs
  | cons l0 rest =>
    obtain ⟨p, hp, hr, hadd⟩ := Tortilla.Add_returns h s a l0 rest hl
    have hlt : p < h.arrays.length := h.lt_of_read_ne_nil p (by simp [hr])
    have hnew : s.layersIn
        (h.write p ({ target := l0.target, chain := a :: l0.chain } :: rest)) =
        { target := l0.target, chain := a :: l0.chain } :: rest := by
      simp [Tortilla.layersIn, hp, Heap.read_write_same h p _ hlt]
    exact ⟨_, s, l0, rest, rfl, hadd, hnew, by simp [hnew]⟩

theorem Add_layers_witness :
    tInitial.2.layersIn tInitial.1 ≠ [] ∧
    ∃ h' s' l0 rest, tInitial.2.layersIn tInitial.1 = l0 :: rest ∧
      tInitial.2.Add tInitial.1 second = .ok (h', s') ∧
      s'.layersIn h' = { target := l0.target, chain := second :: l0.chain } :: rest ∧
      (s'.layersIn h').length = (tInitial.2.layersIn tInitial.1).length :=
  ⟨by decide, Add_layers tInitial.1 tInitial.2 second (by decide)⟩

/-- C3: for every error e that is not a `Tortilla`, `New(e)` has exactly one
layer, with target e and an empty chain. -/
theorem New_layers (h : Heap) (e : Err) (he : ∀ t, e ≠ .tortilla t) :
    (New h e).2.layersIn (New h e).1 = [{ target := e, chain := [] }] :=
  layersIn_New h e he

theorem New_layers_witness :
    (∀ t, initialError ≠ .tortilla t) ∧
    (New Heap.empty initialError).2.layersIn (New Heap.empty initialError).1 =
      [{ target := initialError, chain := [] }] :=
  ⟨fun _ hc => Err.noConfusion hc, New_layers Heap.empty initialError
    (fun _ hc => Err.noConfusion hc)⟩

/-- C4: `New` on a `Tortilla` t returns t itself and allocates nothing; hence
`New(New(e))` is the value `New(e)`, with the same `Unwrap` result, the same
`errors.Is` results (as the error compared and as the target) and the same
`Error()` text, for every error e. -/
theorem New_idempotent (h : Heap) (t : Tortilla) (e x : Err) (n : Nat) :
    New h (.tortilla t) = (h, t) ∧
    New (New h e).1 (.tortilla (New h e).2) = New h e ∧
    (New (New h e).1 (.tortilla (New h e).2)).2.Unwrap
        (New (New h e).1 (.tortilla (New h e).2)).1 = (New h e).2.Unwrap (New h e).1 ∧
    errors.Is (New (New h e).1 (.tortilla (New h e).2)).1 n
        (.tortilla (New (New h e).1 (.tortilla (New h e).2)).2) x =
      errors.Is (New h e).1 n (.tortilla (New h e).2) x ∧
    errors.Is (New (New h e).1 (.tortilla (New h e).2)).1 n x
        (.tortilla (New (New h e).1 (.tortilla (New h e).2)).2) =
      errors.Is (New h e).1 n x (.tortilla (New h e).2) ∧
    (New (New h e).1 (.tortilla (New h e).2)).2.Error
        (New (New h e).1 (.tortilla (New h e).2)).1 n = (New h e).2.Error (New h e).1 n := by
  have h2 : New (New h e).1 (.tortilla (New h e).2) = New h e := rfl
  exact ⟨rfl, h2, by rw [h2], by rw [h2], by rw [h2], by rw [h2]⟩

/-- C5 (the code against the claim): after `t := New(err)` and `t.Add(second)`,
the text `t.Error()` of the input is no longer "initial error." but
"initial error: second.", because `Add` wrote into the backing array of t. -/
theorem Add_changes_input_message :
    tInitial.2.Error tInitial.1 0 = .ok "initial error." ∧
    ∃ r, tInitial.2.Add tInitial.1 second = .ok r ∧
      tInitial.2.Error r.1 0 = .ok "initial error: second." :=
  ⟨rfl, _, rfl, rfl⟩

end tortilla

namespace tortilla

/-! ## Identity comparison -/

/-- The loop of `errors.Is` on the target itself, when its type is comparable. -/
theorem errors.is_self (h : Heap) (w : Err) (n : Nat) (hw : w.comparable = true) :
    errors.is h w w.comparable (n + 1) w = .ok true := by
  simp [errors.is, hw]

/-- The loop of `errors.Is` on an error with no `Is` and no `Unwrap` method that is
not the target: one iteration, and the answer is false. -/
theorem errors.is_plain_ne (h : Heap) (target w : Err) (c : Bool) (n : Nat)
    (hU : w.hasUnwrap = false) (hI : w.hasIs = false) (hne : w ≠ target) :
    errors.is h target c (n + 1) w = .ok false := by
  cases w with
  | errorString p s => simp [errors.is, Err.Is, hne]
  | valueError p m => simp [errors.is, Err.Is, hne]
  | wrapError p m inner => simp [Err.hasUnwrap] at hU
  | joinError p m e1 e2 => simp [Err.hasUnwrap] at hU
  | tortilla t => simp [Err.hasUnwrap] at hU
  | isError p m sentinel => simp [Err.hasIs] at hI

/-- C6 (the claim as stated fails): wrapping with an error that is itself a
`Tortilla` gives a value that `errors.Is` does not match with that error; the
comparison returns false, and returns true for no budget. -/
theorem Wrap_Is_tortilla_counterexample :
    errors.Is tWrappedWithTortilla.1 3 (.tortilla tWrappedWithTortilla.2)
        (.tortilla tWrapping.2) = .ok false ∧
    ∀ n, errors.Is tWrappedWithTortilla.1 n (.tortilla tWrappedWithTortilla.2)
        (.tortilla tWrapping.2) ≠ .ok true :=
  ⟨rfl, fun n => by
    rcases n with _ | _ | _ | n
    · show (Except.error Fault.outOfFuel : Except Fault Bool) ≠ .ok true
      exact fun hc => Except.noConfusion hc
    · show (Except.error Fault.outOfFuel : Except Fault Bool) ≠ .ok true
      exact fun hc => Except.noConfusion hc
    · show (Except.error Fault.outOfFuel : Except Fault Bool) ≠ .ok true
      exact fun hc => Except.noConfusion hc
    · show (Except.ok false : Except Fault Bool) ≠ .ok true
      exact fun hc => Bool.noConfusion (Except.ok.inj hc)⟩

/-- C6 (amended): for every `Tortilla` s and every error w of a comparable type,
`errors.Is(Wrap(s, w), w)` returns true: the first `Unwrap` yields w, which is
equal to the target. -/
theorem Wrap_Is_target (h : Heap) (s : Tortilla) (w : Err) (n : Nat)
    (hw : w.comparable = true) :
    errors.Is (s.Wrap h w).1 (n + 2) (.tortilla (s.Wrap h w).2) w = .ok true := by
  rw [errors.Is, errors.is_tortilla, Tortilla.Unwrap_Wrap]
  exact errors.is_self _ w n hw

theorem Wrap_Is_target_witness :
    wrappedWith.comparable = true ∧
    errors.Is (tInitial.2.Wrap tInitial.1 wrappedWith).1 (0 + 2)
      (.tortilla (tInitial.2.Wrap tInitial.1 wrappedWith).2) wrappedWith = .ok true :=
  ⟨rfl, Wrap_Is_target tInitial.1 tInitial.2 wrappedWith 0 rfl⟩

/-- C7 (the claim as stated fails): adding to `New(err)` the error err itself
gives a value that `errors.Is` matches with err, through the front target. -/
theorem Add_Is_added_counterexample :
    ∃ r, tInitial.2.Add tInitial.1 initialError = .ok r ∧
      errors.Is r.1 2 (.tortilla r.2) initialError = .ok true :=
  ⟨_, rfl, rfl⟩

/-- C7 (amended): for every `Tortilla` s with at least one layer and every error a
that `errors.Is(s, a)` does not match, `Add(s, a)` returns and
`errors.Is(Add(s, a), a)` returns false. -/
theorem Add_Is_added (h : Heap) (s : Tortilla) (a : Err) (n : Nat)
    (hs : s.layersIn h ≠ []) (hnot : errors.Is h n (.tortilla s) a = .ok false) :
    ∃ h' s', s.Add h a = .ok (h', s') ∧
      errors.Is h' n (.tortilla s') a = .ok false := by
  cases hl : s.layersIn h with
  | nil => exact absurd hl hs
  | cons l0 rest =>
    obtain ⟨p, _, hr, hadd⟩ := Tortilla.Add_returns h s a l0 rest hl
    refine ⟨_, s, hadd, ?_⟩
    rw [errors.Is, errors.is_congr h _ a a.comparable
      (Tortilla.Unwrap_write_chain h p l0 rest _ hr)]
    exact hnot

theorem Add_Is_added_witness :
    tInitial.2.layersIn tInitial.1 ≠ [] ∧
    errors.Is tInitial.1 2 (.tortilla tInitial.2) second = .ok false ∧
    ∃ h' s', tInitial.2.Add tInitial.1 second = .ok (h', s') ∧
      errors.Is h' 2 (.tortilla s') second = .ok false :=
  ⟨by decide, rfl, Add_Is_added tInitial.1 tInitial.2 second 2 (by decide) rfl⟩

/-- C8: for every `Tortilla` s with at least one layer, every error a and every
candidate x, `Add(s, a)` returns, `errors.Is(Add(s, a), x)` gives what
`errors.Is(s, x)` gives (so one holds exactly when the other does), and
`Unwrap(Add(s, a))` is `Unwrap(s)`. -/
theorem Add_Is_iff (h : Heap) (s : Tortilla) (a x : Err) (n : Nat)
    (hs : s.layersIn h ≠ []) :
    ∃ h' s', s.Add h a = .ok (h', s') ∧
      errors.Is h' n (.tortilla s') x = errors.Is h n (.tortilla s) x ∧
      (errors.Is h' n (.tortilla s') x = .ok true ↔
        errors.Is h n (.tortilla s) x = .ok true) ∧
      s'.Unwrap h' = s.Unwrap h := by
  cases hl : s.layersIn h with
  | nil => exact absurd hl hs
  | cons l0 rest =>
    obtain ⟨p, _, hr, hadd⟩ := Tortilla.Add_returns h s a l0 rest hl
    have hU := Tortilla.Unwrap_write_chain h p l0 rest (a :: l0.chain) hr
    have hI : errors.Is
        (h.write p ({ target := l0.target, chain := a :: l0.chain } :: rest)) n
        (.tortilla s) x = errors.Is h n (.tortilla s) x := by
      rw [errors.Is, errors.is_congr h _ x x.comparable hU]
      rfl
    exact ⟨_, s, hadd, hI, by rw [hI], hU s⟩

theorem Add_Is_iff_witness :
    tInitial.2.layersIn tInitial.1 ≠ [] ∧
    ∃ h' s', tInitial.2.Add tInitial.1 second = .ok (h', s') ∧
      errors.Is h' 2 (.tortilla s') initialError =
        errors.Is tInitial.1 2 (.tortilla tInitial.2) initialError ∧
      (errors.Is h' 2 (.tortilla s') initialError = .ok true ↔
        errors.Is tInitial.1 2 (.tortilla tInitial.2) initialError = .ok true) ∧
      s'.Unwrap h' = tInitial.2.Unwrap tInitial.1 :=
  ⟨by decide, Add_Is_iff tInitial.1 tInitial.2 second initialError 2 (by decide)⟩

/-- C9 (the claim as stated fails): an error that wraps nothing can still have an
`Is` method.  With s := New(errPermission) and w := eacces, whose `Is` method
answers true for errPermission, the target errPermission of the earlier layer is
not w, and `errors.Is(Wrap(s, w), errPermission)` returns true. -/
theorem Wrap_Is_method_counterexample :
    errPermission ∈ (tPermission.2.layersIn tPermission.1).map layer.target ∧
    errPermission ≠ eacces ∧ eacces.hasUnwrap = false ∧
    errors.Is (tPermission.2.Wrap tPermission.1 eacces).1 2
      (.tortilla (tPermission.2.Wrap tPermission.1 eacces).2) errPermission = .ok true :=
  ⟨by decide, by decide, rfl, rfl⟩

/-- C9 (amended): for every `Tortilla` s, every plain error w (one with no `Unwrap`
method and no `Is` method of its own) and every target t of a layer of s that is
not w, `errors.Is(Wrap(s, w), t)` returns false: `Unwrap` gives w, w is not t, and
w unwraps no further. -/
theorem Wrap_hides_earlier_targets (h : Heap) (s : Tortilla) (w t : Err) (n : Nat)
    (hU : w.hasUnwrap = false) (hI : w.hasIs = false)
    (_ht : t ∈ (s.layersIn h).map layer.target) (hne : t ≠ w) :
    errors.Is (s.Wrap h w).1 (n + 2) (.tortilla (s.Wrap h w).2) t = .ok false := by
  rw [errors.Is, errors.is_tortilla, Tortilla.Unwrap_Wrap]
  exact errors.is_plain_ne _ t w _ n hU hI (fun hc => hne hc.symm)

theorem Wrap_hides_earlier_targets_witness :
    wrappedWith.hasUnwrap = false ∧ wrappedWith.hasIs = false ∧
    initialError ∈ (tInitial.2.layersIn tInitial.1).map layer.target ∧
    initialError ≠ wrappedWith ∧
    errors.Is (tInitial.2.Wrap tInitial.1 wrappedWith).1 (0 + 2)
      (.tortilla (tInitial.2.Wrap tInitial.1 wrappedWith).2) initialError = .ok false :=
  ⟨rfl, rfl, by decide, by decide,
    Wrap_hides_earlier_targets tInitial.1 tInitial.2 wrappedWith initialError 0 rfl rfl
      (by decide) (by decide)⟩

/-- C10 (the claim as stated fails): for a plain error of a type that is not
comparable (a slice type, say), `errors.Is(New(e), e)` returns false: the walk
never compares with a target of such a type, and nothing else matches. -/
theorem New_Is_value_counterexample :
    (∀ t, manyErrors ≠ .tortilla t) ∧
    errors.Is (New Heap.empty manyErrors).1 2 (.tortilla (New Heap.empty manyErrors).2)
      manyErrors = .ok false :=
  ⟨fun _ hc => Err.noConfusion hc, rfl⟩

/-- C10 (amended): for every error e that is not a `Tortilla`, `Unwrap(New(e))` is
e, and when the type of e is comparable `errors.Is(New(e), e)` returns true. -/
theorem New_Is_target (h : Heap) (e : Err) (n : Nat) (he : ∀ t, e ≠ .tortilla t) :
    (New h e).2.Unwrap (New h e).1 = .ok e ∧
    (e.comparable = true →
      errors.Is (New h e).1 (n + 2) (.tortilla (New h e).2) e = .ok true) := by
  have hu : (New h e).2.Unwrap (New h e).1 = .ok e := by
    simp [Tortilla.Unwrap, layersIn_New h e he]
  refine ⟨hu, fun hc => ?_⟩
  rw [errors.Is, errors.is_tortilla, hu]
  exact errors.is_self _ e n hc

theorem New_Is_target_witness :
    (∀ t, initialError ≠ .tortilla t) ∧
    ((New Heap.empty initialError).2.Unwrap (New Heap.empty initialError).1 =
        .ok initialError ∧
      (initialError.comparable = true →
        errors.Is (New Heap.empty initialError).1 (0 + 2)
          (.tortilla (New Heap.empty initialError).2) initialError = .ok true)) ∧
    initialError.comparable = true ∧
    errors.Is (New Heap.empty initialError).1 2
      (.tortilla (New Heap.empty initialError).2) initialError = .ok true :=
  ⟨fun _ hc => Err.noConfusion hc,
    New_Is_target Heap.empty initialError 0 (fun _ hc => Err.noConfusion hc), rfl, rfl⟩

end tortilla

namespace tortilla

/-! ## Trimming -/

theorem dropWhile_reverse_append (p : Char → Bool) (xs ys : List Char)
    (hy : ∀ c ∈ ys, p c = true) (hx : ∀ c, xs.getLast? = some c → p c = false) :
    ((xs ++ ys).reverse.dropWhile p).reverse = xs := by
  have h1 : ∀ c ∈ ys.reverse, p c = true := fun c hc => hy c (List.mem_reverse.mp hc)
  rw [List.reverse_append, List.dropWhile_append_of_pos h1]
  cases hr : xs.reverse with
  | nil =>
    have : xs = [] := by simpa using hr
    simp [this]
  | cons c cs =>
    have hl : xs.getLast? = some c := by
      rw [← List.head?_reverse, hr]
      rfl
    have hc : ¬ (p c = true) := by simp [hx c hl]
    rw [List.dropWhile_cons_of_neg hc, ← hr, List.reverse_reverse]

theorem dropWhile_of_head (p : Char → Bool) (xs : List Char)
    (hx : ∀ c, xs.head? = some c → p c = false) : xs.dropWhile p = xs := by
  cases xs with
  | nil => rfl
  | cons c cs =>
    have hc : ¬ (p c = true) := by simp [hx c rfl]
    exact List.dropWhile_cons_of_neg hc

theorem TrimRight_append (X Y cutset : String) (hy : ∀ c ∈ Y.data, c ∈ cutset.data)
    (hx : ∀ c, X.data.getLast? = some c → c ∉ cutset.data) :
    TrimRight (X ++ Y) cutset = X := by
  apply String.ext
  simp only [TrimRight, String.data_append]
  apply dropWhile_reverse_append
  · intro c hc
    simpa using hy c hc
  · intro c hc
    simpa using hx c hc

theorem TrimSpace_append (X W : String)
    (hs : ∀ c, X.data.head? = some c → isSpace c = false)
    (he : ∀ c, X.data.getLast? = some c → isSpace c = false)
    (hw : ∀ c ∈ W.data, isSpace c = true) :
    TrimSpace (X ++ W) = X := by
  apply String.ext
  simp only [TrimSpace, String.data_append]
  cases hX : X.data with
  | nil =>
    rw [List.nil_append, List.dropWhile_eq_nil_iff.mpr hw]
    rfl
  | cons c cs =>
    rw [← hX, dropWhile_of_head isSpace (X.data ++ W.data)]
    · exact dropWhile_reverse_append isSpace X.data W.data hw he
    · intro d hd
      apply hs d
      rw [hX] at hd ⊢
      simpa using hd

end tortilla

namespace tortilla

/-! ## Joining with a separator -/

theorem foldl_eq_catSep (sep : String) (ms : List String) :
    ∀ acc : String, ms.foldl (fun acc m => acc ++ m ++ sep) acc = acc ++ catSep sep ms := by
  induction ms with
  | nil => intro acc; simp [catSep]
  | cons m ms ih =>
    intro acc
    rw [List.foldl_cons, ih, catSep]
    simp [String.append_assoc]

theorem catSep_append (sep : String) (l1 l2 : List String) :
    catSep sep (l1 ++ l2) = catSep sep l1 ++ catSep sep l2 := by
  induction l1 with
  | nil => simp [catSep]
  | cons m ms ih => simp [catSep, ih, String.append_assoc]

theorem intercalate_go_append (sep : String) (ms : List String) :
    ∀ acc : String,
      String.intercalate.go acc sep ms ++ sep = acc ++ sep ++ catSep sep ms := by
  induction ms with
  | nil => intro acc; simp [String.intercalate.go, catSep]
  | cons m ms ih => intro acc; simp [String.intercalate.go, catSep, ih, String.append_assoc]

/-- Joining with a separator and adding the separator once more gives the strings
each followed by the separator. -/
theorem intercalate_append_sep (sep : String) (ms : List String) (hms : ms ≠ []) :
    sep.intercalate ms ++ sep = catSep sep ms := by
  cases ms with
  | nil => exact absurd rfl hms
  | cons m ms =>
    simp [String.intercalate, intercalate_go_append, catSep, String.append_assoc]

theorem startsOutside_append (p : Char → Bool) (A B : String)
    (hA : startsOutside p A = true) : startsOutside p (A ++ B) = true := by
  unfold startsOutside at hA ⊢
  cases hd : A.data with
  | nil => simp [hd] at hA
  | cons c cs => simpa [hd] using hA

theorem endsOutside_append (p : Char → Bool) (A B : String)
    (hB : endsOutside p B = true) : endsOutside p (A ++ B) = true := by
  unfold endsOutside at hB ⊢
  cases hl : B.data.getLast? with
  | none => simp [hl] at hB
  | some c => simpa [hl] using hB

theorem head_of_startsOutside (p : Char → Bool) (A : String) (hA : startsOutside p A = true) :
    ∀ c, A.data.head? = some c → p c = false := by
  intro c hc
  simpa [startsOutside, hc] using hA

theorem last_of_endsOutside (p : Char → Bool) (A : String) (hA : endsOutside p A = true) :
    ∀ c, A.data.getLast? = some c → p c = false := by
  intro c hc
  simpa [endsOutside, hc] using hA

theorem startsOutside_mono (p q : Char → Bool) (hpq : ∀ c, p c = false → q c = false)
    (A : String) (hA : startsOutside p A = true) : startsOutside q A = true := by
  unfold startsOutside at hA ⊢
  cases hd : A.data.head? with
  | none => simp [hd] at hA
  | some c =>
    have : p c = false := by simpa [hd] using hA
    simp [hpq c this]

theorem endsOutside_mono (p q : Char → Bool) (hpq : ∀ c, p c = false → q c = false)
    (A : String) (hA : endsOutside p A = true) : endsOutside q A = true := by
  unfold endsOutside at hA ⊢
  cases hd : A.data.getLast? with
  | none => simp [hd] at hA
  | some c =>
    have : p c = false := by simpa [hd] using hA
    simp [hpq c this]

theorem intercalate_go_starts (p : Char → Bool) (sep : String) (ms : List String) :
    ∀ acc : String, startsOutside p acc = true →
      startsOutside p (String.intercalate.go acc sep ms) = true := by
  induction ms with
  | nil => intro acc h; simpa [String.intercalate.go] using h
  | cons m ms ih =>
    intro acc h
    simp only [String.intercalate.go]
    apply ih
    rw [String.append_assoc]
    exact startsOutside_append p acc _ h

theorem intercalate_go_ends (p : Char → Bool) (sep : String) (ms : List String) :
    ∀ acc : String, endsOutside p acc = true → (∀ m ∈ ms, endsOutside p m = true) →
      endsOutside p (String.intercalate.go acc sep ms) = true := by
  induction ms with
  | nil => intro acc h _; simpa [String.intercalate.go] using h
  | cons m ms ih =>
    intro acc _ hall
    simp only [String.intercalate.go]
    apply ih
    · exact endsOutside_append p _ m (hall m (List.mem_cons_self m ms))
    · intro x hx
      exact hall x (List.mem_cons_of_mem m hx)

theorem intercalate_starts (p : Char → Bool) (sep : String) (m : String) (ms : List String)
    (h : startsOutside p m = true) : startsOutside p (sep.intercalate (m :: ms)) = true := by
  simpa [String.intercalate] using intercalate_go_starts p sep ms m h

theorem intercalate_ends (p : Char → Bool) (sep : String) (ms : List String) (hms : ms ≠ [])
    (h : ∀ m ∈ ms, endsOutside p m = true) : endsOutside p (sep.intercalate ms) = true := by
  cases ms with
  | nil => exact absurd rfl hms
  | cons m ms =>
    simp only [String.intercalate]
    exact intercalate_go_ends p sep ms m (h m (List.mem_cons_self m ms))
      (fun x hx => h x (List.mem_cons_of_mem m hx))

end tortilla

namespace tortilla

/-! ## `Error()` on well-behaved messages -/

theorem foldlM_ok {α β : Type} (f : β → α → Except Fault β) (g : β → α → β) (l : List α)
    (hf : ∀ x ∈ l, ∀ b, f b x = .ok (g b x)) :
    ∀ init, l.foldlM f init = .ok (l.foldl g init) := by
  induction l with
  | nil => intro init; rfl
  | cons x xs ih =>
    intro init
    rw [List.foldlM_cons, hf x (List.mem_cons_self x xs) init]
    exact ih (fun y hy => hf y (List.mem_cons_of_mem x hy)) (g init x)

theorem isEdgeChar_false (c : Char) (hc : isEdgeChar c = false) :
    isSpace c = false ∧ c ≠ ':' ∧ c ≠ ',' ∧ c ≠ ' ' := by
  simp only [isEdgeChar, Bool.or_eq_false_iff, beq_eq_false_iff_ne] at hc
  refine ⟨hc.1.1, hc.1.2, hc.2, ?_⟩
  intro h
  rw [h] at hc
  exact absurd hc.1.1 (by decide)

theorem not_mem_commaSpace (c : Char) (hc : isEdgeChar c = false) : c ∉ ", ".data := by
  obtain ⟨_, _, h1, h2⟩ := isEdgeChar_false c hc
  show c ∉ [',', ' ']
  simp [h1, h2]

theorem not_mem_colonSpace (c : Char) (hc : isEdgeChar c = false) : c ∉ ": ".data := by
  obtain ⟨_, h1, _, h2⟩ := isEdgeChar_false c hc
  show c ∉ [':', ' ']
  simp [h1, h2]

theorem goodMsg_starts (m : String) (hm : goodMsg m = true) :
    startsOutside isEdgeChar m = true := by
  simp only [goodMsg, Bool.and_eq_true] at hm
  exact hm.1

theorem goodMsg_ends (m : String) (hm : goodMsg m = true) :
    endsOutside isEdgeChar m = true := by
  simp only [goodMsg, Bool.and_eq_true] at hm
  exact hm.2

/-- The chain text of `buildChainMsg` when every chain entry has a message that is
well-behaved: the messages joined by a comma and a space. -/
theorem buildChainMsg_good (E : Err → Except Fault String) (M : Err → String)
    (chain : List Err) (hE : ∀ e ∈ chain, E e = .ok (M e))
    (hM : ∀ e ∈ chain, goodMsg (M e) = true) :
    buildChainMsg E chain = .ok (", ".intercalate (chain.map M)) := by
  have hfold := foldlM_ok (fun msg err => do return msg ++ (← E err) ++ ", ")
    (fun msg err => msg ++ M err ++ ", ") chain
    (fun x hx b => by simp [hE x hx, bind, Except.bind, pure, Except.pure]) ""
  have hcat : chain.foldl (fun msg err => msg ++ M err ++ ", ") "" =
      catSep ", " (chain.map M) := by
    have h1 := foldl_eq_catSep ", " (chain.map M) ""
    rw [List.foldl_map] at h1
    simpa using h1
  unfold buildChainMsg
  rw [hfold, hcat]
  cases chain with
  | nil => rfl
  | cons e es =>
    have hne : (e :: es).map M ≠ [] := by simp
    have hends : endsOutside isEdgeChar (", ".intercalate ((e :: es).map M)) = true := by
      apply intercalate_ends _ _ _ hne
      intro m hm
      obtain ⟨x, hx, rfl⟩ := List.mem_map.mp hm
      exact goodMsg_ends _ (hM x hx)
    rw [← intercalate_append_sep ", " _ hne]
    show Except.ok (TrimRight _ ", ") = _
    rw [TrimRight_append _ _ _ (fun c hc => hc)
      (fun c hc => not_mem_commaSpace c (last_of_endsOutside _ _ hends c hc))]

end tortilla

namespace tortilla

theorem layerText_starts (tm : String) (cms : List String) (ht : goodMsg tm = true) :
    startsOutside isEdgeChar (layerText tm cms) = true := by
  unfold layerText
  split
  · exact goodMsg_starts tm ht
  · rw [String.append_assoc]
    exact startsOutside_append _ _ _ (goodMsg_starts tm ht)

theorem layerText_ends (tm : String) (cms : List String) (ht : goodMsg tm = true)
    (hc : ∀ m ∈ cms, goodMsg m = true) :
    endsOutside isEdgeChar (layerText tm cms) = true := by
  unfold layerText
  split
  · exact goodMsg_ends tm ht
  · rename_i hne
    exact endsOutside_append _ _ _
      (intercalate_ends _ _ _ hne (fun m hm => goodMsg_ends m (hc m hm)))

/-- The text `buildLayerMsg` gives for a layer whose messages are well-behaved: the
text of the layer followed by a full stop and a space. -/
theorem buildLayerMsg_good (E : Err → Except Fault String) (M : Err → String) (l : layer)
    (hT : E l.target = .ok (M l.target)) (hTg : goodMsg (M l.target) = true)
    (hE : ∀ e ∈ l.chain, E e = .ok (M e)) (hM : ∀ e ∈ l.chain, goodMsg (M e) = true) :
    buildLayerMsg E l = .ok (layerText (M l.target) (l.chain.map M) ++ ". ") := by
  have hMm : ∀ m ∈ l.chain.map M, goodMsg m = true := by
    intro m hm
    obtain ⟨x, hx, rfl⟩ := List.mem_map.mp hm
    exact hM x hx
  have hends := layerText_ends (M l.target) (l.chain.map M) hTg hMm
  have htrim : TrimRight (M l.target ++ ": " ++ ", ".intercalate (l.chain.map M)) ": " =
      layerText (M l.target) (l.chain.map M) := by
    by_cases hnil : l.chain.map M = []
    · rw [hnil]
      simp only [layerText, if_true]
      show TrimRight (M l.target ++ ": " ++ "") ": " = M l.target
      rw [String.append_empty]
      exact TrimRight_append _ _ _ (fun c hc => hc)
        (fun c hc => not_mem_colonSpace c
          (last_of_endsOutside _ _ (goodMsg_ends _ hTg) c hc))
    · have hlt : layerText (M l.target) (l.chain.map M) =
          M l.target ++ ": " ++ ", ".intercalate (l.chain.map M) := by
        simp [layerText, hnil]
      rw [← hlt]
      have h0 := TrimRight_append (layerText (M l.target) (l.chain.map M)) "" ": "
        (fun c hc => by simp at hc)
        (fun c hc => not_mem_colonSpace c (last_of_endsOutside _ _ hends c hc))
      rwa [String.append_empty] at h0
  simp only [buildLayerMsg, hT, buildChainMsg_good E M l.chain hE hM, bind, Except.bind,
    pure, Except.pure, htrim]

/-- The text `Tortilla.Error` builds from layers whose messages are well-behaved:
the texts of the layers joined by a full stop and a space, and a final full stop. -/
theorem flatten_good (E : Err → Except Fault String) (M : Err → String)
    (layers : List layer) (hne : layers ≠ [])
    (hT : ∀ l ∈ layers, E l.target = .ok (M l.target) ∧ goodMsg (M l.target) = true)
    (hC : ∀ l ∈ layers, ∀ e ∈ l.chain, E e = .ok (M e) ∧ goodMsg (M e) = true) :
    flatten E layers =
      .ok (". ".intercalate (layers.map fun l => layerText (M l.target) (l.chain.map M))
        ++ ".") := by
  have hfold := foldlM_ok (fun msg l => do return msg ++ (← buildLayerMsg E l))
    (fun msg l => msg ++ layerText (M l.target) (l.chain.map M) ++ ". ") layers
    (fun l hl b => by
      simp [buildLayerMsg_good E M l (hT l hl).1 (hT l hl).2 (fun e he => (hC l hl e he).1)
        (fun e he => (hC l hl e he).2), bind, Except.bind, pure, Except.pure,
        String.append_assoc]) ""
  have hcat : layers.foldl
      (fun msg l => msg ++ layerText (M l.target) (l.chain.map M) ++ ". ") "" =
      catSep ". " (layers.map fun l => layerText (M l.target) (l.chain.map M)) := by
    have h1 := foldl_eq_catSep ". "
      (layers.map fun l => layerText (M l.target) (l.chain.map M)) ""
    rw [List.foldl_map] at h1
    simpa using h1
  unfold flatten
  rw [hfold, hcat]
  cases layers with
  | nil => exact absurd rfl hne
  | cons l ls =>
    have hne2 : ((l :: ls).map fun l => layerText (M l.target) (l.chain.map M)) ≠ [] := by
      simp
    have hl := hT l (List.mem_cons_self l ls)
    have hstart : startsOutside isSpace
        (". ".intercalate ((l :: ls).map fun l => layerText (M l.target) (l.chain.map M))
          ++ ".") = true := by
      apply startsOutside_append
      apply startsOutside_mono isEdgeChar isSpace (fun c hc => (isEdgeChar_false c hc).1)
      rw [List.map_cons]
      exact intercalate_starts _ _ _ _ (layerText_starts _ _ hl.2)
    have hend : endsOutside isSpace
        (". ".intercalate ((l :: ls).map fun l => layerText (M l.target) (l.chain.map M))
          ++ ".") = true :=
      endsOutside_append _ _ _ (by decide)
    rw [← intercalate_append_sep ". " _ hne2]
    show Except.ok (TrimSpace (_ ++ ("." ++ " "))) = _
    rw [← String.append_assoc, TrimSpace_append _ " " (head_of_startsOutside _ _ hstart)
      (last_of_endsOutside _ _ hend) (by decide)]

end tortilla

namespace tortilla

/-! ## Flatten: `Error()` -/

/-- C11 (the code against the claim): on messages that end in a colon or a comma,
or are empty, `Error()` is not the reference text.  For `New(errors.New("a:"))`
the code gives "a." where the reference gives "a:."; with the chain entry "x,"
added to `New(errors.New("t"))` the code gives "t: x." where the reference gives
"t: x,."; with an empty chain entry the code gives "t." where the reference
gives "t: .". -/
theorem Error_not_FlattenSpec :
    ((New Heap.empty (.errorString 1 "a:")).2.Error
        (New Heap.empty (.errorString 1 "a:")).1 0 = .ok "a." ∧
      FlattenSpec [("a:", [])] = "a:.") ∧
    ((∃ r, (New Heap.empty (.errorString 1 "t")).2.Add
          (New Heap.empty (.errorString 1 "t")).1 (.errorString 2 "x,") = .ok r ∧
        r.2.Error r.1 0 = .ok "t: x.") ∧
      FlattenSpec [("t", ["x,"])] = "t: x,.") ∧
    ((∃ r, (New Heap.empty (.errorString 1 "t")).2.Add
          (New Heap.empty (.errorString 1 "t")).1 (.errorString 2 "") = .ok r ∧
        r.2.Error r.1 0 = .ok "t.") ∧
      FlattenSpec [("t", [""])] = "t: .") :=
  ⟨⟨rfl, rfl⟩, ⟨⟨_, rfl, rfl⟩, rfl⟩, ⟨⟨_, rfl, rfl⟩, rfl⟩⟩

/-- C12: for every `Tortilla` with at least one layer whose targets and chain
entries all have messages that are non-empty and neither begin nor end with
white space, a colon or a comma, `Error()` returns the texts of the layers, front
layer first, joined by a full stop and a space and followed by a full stop; the
text of a layer is its target message when the chain is empty, and otherwise the
target message, a colon and a space, and the chain messages in stored order
(most recently added first) joined by a comma and a space. -/
theorem Error_good (h : Heap) (n : Nat) (t : Tortilla) (M : Err → String)
    (hne : t.layersIn h ≠ [])
    (hT : ∀ l ∈ t.layersIn h,
      Err.Error h n l.target = .ok (M l.target) ∧ goodMsg (M l.target) = true)
    (hC : ∀ l ∈ t.layersIn h, ∀ e ∈ l.chain,
      Err.Error h n e = .ok (M e) ∧ goodMsg (M e) = true) :
    t.Error h n =
      .ok (". ".intercalate
        ((t.layersIn h).map fun l => layerText (M l.target) (l.chain.map M)) ++ ".") :=
  flatten_good (Err.Error h n) M (t.layersIn h) hne hT hC

theorem Error_good_witness :
    rolledOutCalls = .ok tRolledOut ∧
    tRolledOut.2.layersIn tRolledOut.1 ≠ [] ∧
    (∀ l ∈ tRolledOut.2.layersIn tRolledOut.1,
      Err.Error tRolledOut.1 0 l.target = .ok (Err.msg l.target) ∧
        goodMsg (Err.msg l.target) = true) ∧
    (∀ l ∈ tRolledOut.2.layersIn tRolledOut.1, ∀ e ∈ l.chain,
      Err.Error tRolledOut.1 0 e = .ok (Err.msg e) ∧ goodMsg (Err.msg e) = true) ∧
    tRolledOut.2.Error tRolledOut.1 0 =
      .ok (". ".intercalate ((tRolledOut.2.layersIn tRolledOut.1).map fun l =>
        layerText (Err.msg l.target) (l.chain.map Err.msg)) ++ ".") ∧
    ". ".intercalate ((tRolledOut.2.layersIn tRolledOut.1).map fun l =>
        layerText (Err.msg l.target) (l.chain.map Err.msg)) ++ "." =
      "sixth: seventh. fifth. second: fourth, third. first." := by
  have hl : tRolledOut.2.layersIn tRolledOut.1 =
      [⟨.errorString 6 "sixth", [.errorString 7 "seventh"]⟩, ⟨.errorString 5 "fifth", []⟩,
        ⟨.errorString 2 "second", [.errorString 4 "fourth", .errorString 3 "third"]⟩,
        ⟨.errorString 1 "first", []⟩] := rfl
  have hne : tRolledOut.2.layersIn tRolledOut.1 ≠ [] := by rw [hl]; simp
  have hT : ∀ l ∈ tRolledOut.2.layersIn tRolledOut.1,
      Err.Error tRolledOut.1 0 l.target = .ok (Err.msg l.target) ∧
        goodMsg (Err.msg l.target) = true := by
    rw [hl]
    intro l hl
    simp only [List.mem_cons, List.mem_singleton, List.not_mem_nil, or_false] at hl
    rcases hl with rfl | rfl | rfl | rfl <;> exact ⟨rfl, by decide⟩
  have hC : ∀ l ∈ tRolledOut.2.layersIn tRolledOut.1, ∀ e ∈ l.chain,
      Err.Error tRolledOut.1 0 e = .ok (Err.msg e) ∧ goodMsg (Err.msg e) = true := by
    rw [hl]
    intro l hl e he
    simp only [List.mem_cons, List.mem_singleton, List.not_mem_nil, or_false] at hl
    rcases hl with rfl | rfl | rfl | rfl <;>
      simp only [List.mem_cons, List.mem_singleton, List.not_mem_nil, or_false] at he
    · subst he; exact ⟨rfl, by decide⟩
    · rcases he with rfl | rfl <;> exact ⟨rfl, by decide⟩
  exact ⟨rfl, hne, hT, hC, Error_good tRolledOut.1 0 tRolledOut.2 Err.msg hne hT hC, rfl⟩

end tortilla

namespace tortilla

theorem Err.Error_plain (h : Heap) (n : Nat) (e : Err) (he : ∀ t, e ≠ .tortilla t) :
    Err.Error h n e = .ok e.msg := by
  cases e with
  | tortilla t => exact absurd rfl (he t)
  | _ => cases n <;> rfl

theorem head_of_beginsWith (p : Char → Bool) (m : String) (hm : beginsWith p m = false) :
    ∀ c, m.data.head? = some c → p c = false := by
  intro c hc
  simpa [beginsWith, hc] using hm

theorem last_of_endsWith (p : Char → Bool) (m : String) (hm : endsWith p m = false) :
    ∀ c, m.data.getLast? = some c → p c = false := by
  intro c hc
  simpa [endsWith, hc] using hm

/-- `Error()` of a value with the single layer (e, no chain), when the message of
e does not begin with white space and does not end with a colon or a space. -/
theorem flatten_single (E : Err → Except Fault String) (e : Err) (m : String)
    (hE : E e = .ok m) (hstart : beginsWith isSpace m = false)
    (hend : endsWith isColonOrSpace m = false) :
    flatten E [{ target := e, chain := [] }] = .ok (m ++ ".") := by
  have htrim : TrimRight (m ++ ": ") ": " = m := by
    apply TrimRight_append _ _ _ (fun c hc => hc)
    intro c hc
    have := last_of_endsWith _ m hend c hc
    simp only [isColonOrSpace, Bool.or_eq_false_iff, beq_eq_false_iff_ne] at this
    show c ∉ [':', ' ']
    simp [this.1, this.2]
  have hchain : buildChainMsg E [] = .ok "" := rfl
  have hlayer : buildLayerMsg E { target := e, chain := [] } = .ok (m ++ ". ") := by
    simp only [buildLayerMsg, hE, hchain, bind, Except.bind, pure, Except.pure,
      String.append_empty, htrim]
  have hsp : TrimSpace (m ++ "." ++ " ") = m ++ "." := by
    apply TrimSpace_append
    · intro c hc
      cases hd : m.data with
      | nil =>
        rw [String.data_append, hd] at hc
        cases hc
        decide
      | cons d ds =>
        rw [String.data_append, hd] at hc
        cases hc
        exact head_of_beginsWith _ m hstart c (by rw [hd]; rfl)
    · intro c hc
      rw [String.data_append] at hc
      have : '.' = c := by simpa using hc
      rw [← this]
      decide
    · decide
  have hassoc : m ++ ". " = m ++ "." ++ " " := by
    rw [String.append_assoc]
    rfl
  simp only [flatten, List.foldlM_cons, List.foldlM_nil, hlayer, bind, Except.bind, pure,
    Except.pure, String.empty_append, hassoc, hsp]

/-- C13 (the claim as stated fails): `New(errors.New("initial error")).Error()` is
"initial error.", with a full stop that the message "initial error" of the error
does not have. -/
theorem New_message_counterexample :
    tInitial.2.Error tInitial.1 0 = .ok "initial error." ∧
    Err.Error tInitial.1 0 initialError = .ok "initial error" ∧
    tInitial.2.Error tInitial.1 0 ≠ Err.Error tInitial.1 0 initialError :=
  ⟨rfl, rfl, fun hc =>
    absurd (Except.ok.inj (show Except.ok "initial error." = Except.ok "initial error" from hc))
      (by decide)⟩

/-- C13 (amended): for every error e that is not a `Tortilla` and whose message
does not begin with white space and does not end with a colon or a space,
`New(e).Error()` is the message of e followed by a full stop. -/
theorem New_Error (h : Heap) (n : Nat) (e : Err) (m : String)
    (he : ∀ t, e ≠ .tortilla t) (hm : Err.Error h n e = .ok m)
    (hstart : beginsWith isSpace m = false) (hend : endsWith isColonOrSpace m = false) :
    (New h e).2.Error (New h e).1 n = .ok (m ++ ".") := by
  have hm2 : Err.Error (New h e).1 n e = .ok m := by
    rw [Err.Error_plain _ n e he]
    rw [Err.Error_plain h n e he] at hm
    exact hm
  rw [Tortilla.Error, layersIn_New h e he]
  exact flatten_single _ e m hm2 hstart hend

theorem New_Error_witness :
    (∀ t, initialError ≠ .tortilla t) ∧
    Err.Error Heap.empty 0 initialError = .ok "initial error" ∧
    beginsWith isSpace "initial error" = false ∧
    endsWith isColonOrSpace "initial error" = false ∧
    (New Heap.empty initialError).2.Error (New Heap.empty initialError).1 0 =
      .ok ("initial error" ++ ".") :=
  ⟨fun _ hc => Err.noConfusion hc, rfl, by decide, by decide,
    New_Error Heap.empty 0 initialError "initial error" (fun _ hc => Err.noConfusion hc) rfl
      (by decide) (by decide)⟩

end tortilla

namespace tortilla

/-! ## `RollOut` -/

theorem foldl_append_singleton {α β : Type} (f : α → β) (l : List α) :
    ∀ init : List β, l.foldl (fun c e => c ++ [f e]) init = init ++ l.map f := by
  induction l with
  | nil => intro init; simp
  | cons x xs ih => intro init; simp [ih]

/-- What `RollOut` computes from the layers, given the messages of their errors. -/
theorem RollOut_of_messages (h : Heap) (n : Nat) (t : Tortilla) (M : Err → String)
    (hT : ∀ l ∈ t.layersIn h, Err.Error h n l.target = .ok (M l.target))
    (hC : ∀ l ∈ t.layersIn h, ∀ e ∈ l.chain, Err.Error h n e = .ok (M e)) :
    t.RollOut h n =
      .ok ((t.layersIn h).map fun l => [(M l.target, l.chain.map M)]) := by
  have hin : ∀ l ∈ t.layersIn h,
      l.chain.foldlM (fun (c : List String) e => do return c ++ [← Err.Error h n e]) [] =
        .ok (l.chain.map M) := by
    intro l hl
    rw [foldlM_ok _ (fun c e => c ++ [M e]) l.chain
      (fun e he b => by simp [hC l hl e he, bind, Except.bind, pure, Except.pure]) [],
      foldl_append_singleton]
    rfl
  have hout := foldlM_ok
    (fun (s : Stack) l => do
      let c ← l.chain.foldlM (fun (c : List String) e => do
        return c ++ [← Err.Error h n e]) []
      let layer : StringsMap := [(← Err.Error h n l.target, c)]
      return s ++ [layer])
    (fun s l => s ++ [[(M l.target, l.chain.map M)]]) (t.layersIn h)
    (fun l hl b => by simp only [hin l hl, hT l hl]; rfl) []
  unfold Tortilla.RollOut
  rw [hout, foldl_append_singleton]
  rfl

/-- The layers after a successful `Add`, read through the value `Add` was called on. -/
theorem Tortilla.Add_spec (h : Heap) (s : Tortilla) (a : Err) (l0 : layer)
    (rest : List layer) (hs : s.layersIn h = l0 :: rest) :
    ∃ h', s.Add h a = .ok (h', s) ∧
      s.layersIn h' = { target := l0.target, chain := a :: l0.chain } :: rest := by
  obtain ⟨p, hp, hr, hadd⟩ := Tortilla.Add_returns h s a l0 rest hs
  have hlt : p < h.arrays.length := h.lt_of_read_ne_nil p (by simp [hr])
  exact ⟨_, hadd, by simp [Tortilla.layersIn, hp, Heap.read_write_same h p _ hlt]⟩

/-- Whenever the targets and chain entries of a `Tortilla` t have messages (their
`Error()` calls return), `RollOut(t)` returns one single-entry mapping per
layer of t, in the order of the layers; the key of the mapping of a layer is the
message of its target and the value is the list of the messages of its chain
entries in stored order (the empty list for an empty chain). -/
theorem RollOut_of_messages_indexed (h : Heap) (n : Nat) (t : Tortilla) (M : Err → String)
    (hT : ∀ l ∈ t.layersIn h, Err.Error h n l.target = .ok (M l.target))
    (hC : ∀ l ∈ t.layersIn h, ∀ e ∈ l.chain, Err.Error h n e = .ok (M e)) :
    ∃ s : Stack, t.RollOut h n = .ok s ∧
      s.length = (t.layersIn h).length ∧
      ∀ (i : Nat) (l : layer), (t.layersIn h)[i]? = some l → s[i]? = some [(M l.target, l.chain.map M)] := by
  refine ⟨_, RollOut_of_messages h n t M hT hC, by simp, ?_⟩
  intro i l hl
  simp [List.getElem?_map, hl]

theorem RollOut_of_messages_indexed_witness :
    (∀ l ∈ tRolledOut.2.layersIn tRolledOut.1,
      Err.Error tRolledOut.1 0 l.target = .ok (Err.msg l.target)) ∧
    (∀ l ∈ tRolledOut.2.layersIn tRolledOut.1, ∀ e ∈ l.chain,
      Err.Error tRolledOut.1 0 e = .ok (Err.msg e)) ∧
    (∃ s : Stack, tRolledOut.2.RollOut tRolledOut.1 0 = .ok s ∧
      s.length = (tRolledOut.2.layersIn tRolledOut.1).length ∧
      ∀ (i : Nat) (l : layer), (tRolledOut.2.layersIn tRolledOut.1)[i]? = some l →
        s[i]? = some [(Err.msg l.target, l.chain.map Err.msg)]) ∧
    tRolledOut.2.RollOut tRolledOut.1 0 = .ok expectedStack := by
  have hl : tRolledOut.2.layersIn tRolledOut.1 =
      [⟨.errorString 6 "sixth", [.errorString 7 "seventh"]⟩, ⟨.errorString 5 "fifth", []⟩,
        ⟨.errorString 2 "second", [.errorString 4 "fourth", .errorString 3 "third"]⟩,
        ⟨.errorString 1 "first", []⟩] := rfl
  have hT : ∀ l ∈ tRolledOut.2.layersIn tRolledOut.1,
      Err.Error tRolledOut.1 0 l.target = .ok (Err.msg l.target) := by
    rw [hl]
    intro l hl
    simp only [List.mem_cons, List.mem_singleton, List.not_mem_nil, or_false] at hl
    rcases hl with rfl | rfl | rfl | rfl <;> rfl
  have hC : ∀ l ∈ tRolledOut.2.layersIn tRolledOut.1, ∀ e ∈ l.chain,
      Err.Error tRolledOut.1 0 e = .ok (Err.msg e) := by
    rw [hl]
    intro l hl e he
    simp only [List.mem_cons, List.mem_singleton, List.not_mem_nil, or_false] at hl
    rcases hl with rfl | rfl | rfl | rfl <;>
      simp only [List.mem_cons, List.mem_singleton, List.not_mem_nil, or_false] at he
    · subst he; rfl
    · rcases he with rfl | rfl <;> rfl
  exact ⟨hT, hC, RollOut_of_messages_indexed tRolledOut.1 0 tRolledOut.2 Err.msg hT hC, rfl⟩

end tortilla

namespace tortilla

/-- For every `Tortilla` s with at least one layer and errors a and b, both `Add`
calls of `Add(Add(s, a), b)` return, and whenever the errors of the result
have messages, the front mapping of its `RollOut` has as key the message of the
front target and as value the message of b, then the message of a, then the
messages of the previous front chain of s in their order (exactly [b, a] when
that chain was empty); the mappings of the other layers follow. -/
theorem RollOut_Add_Add_of_messages (h : Heap) (n : Nat) (s : Tortilla) (a b : Err) (l0 : layer)
    (rest : List layer) (hs : s.layersIn h = l0 :: rest) :
    ∃ h1 s1 h2 s2, s.Add h a = .ok (h1, s1) ∧ s1.Add h1 b = .ok (h2, s2) ∧
      ∀ M : Err → String,
        (∀ l ∈ s2.layersIn h2, Err.Error h2 n l.target = .ok (M l.target)) →
        (∀ l ∈ s2.layersIn h2, ∀ e ∈ l.chain, Err.Error h2 n e = .ok (M e)) →
        s2.RollOut h2 n =
          .ok ([(M l0.target, M b :: M a :: l0.chain.map M)] ::
            rest.map fun l => [(M l.target, l.chain.map M)]) := by
  obtain ⟨h1, hadd1, hl1⟩ := Tortilla.Add_spec h s a l0 rest hs
  obtain ⟨h2, hadd2, hl2⟩ := Tortilla.Add_spec h1 s b _ rest hl1
  refine ⟨h1, s, h2, s, hadd1, hadd2, ?_⟩
  intro M hT hC
  rw [RollOut_of_messages h2 n s M hT hC, hl2]
  rfl

theorem RollOut_Add_Add_of_messages_witness :
    tInitial.2.layersIn tInitial.1 = { target := initialError, chain := [] } :: [] ∧
    (∃ h1 s1 h2 s2, tInitial.2.Add tInitial.1 second = .ok (h1, s1) ∧
      s1.Add h1 (.errorString 4 "third") = .ok (h2, s2) ∧
      ∀ M : Err → String,
        (∀ l ∈ s2.layersIn h2, Err.Error h2 0 l.target = .ok (M l.target)) →
        (∀ l ∈ s2.layersIn h2, ∀ e ∈ l.chain, Err.Error h2 0 e = .ok (M e)) →
        s2.RollOut h2 0 =
          .ok ([(M initialError,
              M (.errorString 4 "third") :: M second :: ([] : List Err).map M)] ::
            ([] : List layer).map fun l => [(M l.target, l.chain.map M)])) ∧
    (∃ r1 r2, tInitial.2.Add tInitial.1 second = .ok r1 ∧
      r1.2.Add r1.1 (.errorString 4 "third") = .ok r2 ∧
      r2.2.RollOut r2.1 0 = .ok [[("initial error", ["third", "second"])]]) :=
  ⟨rfl,
    RollOut_Add_Add_of_messages tInitial.1 0 tInitial.2 second (.errorString 4 "third")
      { target := initialError, chain := [] } [] rfl,
    _, _, rfl, rfl, rfl⟩

end tortilla

namespace tortilla

/-! ## `PrettyPrint` -/

theorem execChain_newline (c : List String) :
    execChain c ++ "\n" = "\n" ++ catSep "\n" (c.map fun e => "...." ++ e) := by
  induction c with
  | nil => rfl
  | cons e es ih =>
    have h4 : "\n...." = "\n" ++ "...." := rfl
    simp only [execChain, List.map_cons, catSep, String.append_assoc, ih, h4]

theorem execMap_eq (m : StringsMap) : execMap m = catSep "\n" (mapLines m) := by
  induction m with
  | nil => rfl
  | cons e rest ih =>
    obtain ⟨target, chain⟩ := e
    have h1 : target ++ ":" ++ execChain chain ++ "\n" =
        target ++ ":" ++ "\n" ++ catSep "\n" (chain.map fun e => "...." ++ e) := by
      rw [String.append_assoc (target ++ ":"), execChain_newline, ← String.append_assoc]
    show target ++ ":" ++ execChain chain ++ "\n" ++ execMap rest =
      catSep "\n" ((target ++ ":") :: ((chain.map fun e => "...." ++ e) ++ mapLines rest))
    rw [h1, ih, catSep, catSep_append]
    simp only [String.append_assoc]

theorem execStack_eq (s : Stack) : execStack s = catSep "\n" (stackLines s) := by
  induction s with
  | nil => rfl
  | cons l rest ih => simp only [execStack, stackLines, execMap_eq, ih, catSep_append]

theorem stackLines_append (s1 s2 : Stack) :
    stackLines (s1 ++ s2) = stackLines s1 ++ stackLines s2 := by
  induction s1 with
  | nil => rfl
  | cons l rest ih => simp [stackLines, ih]

theorem startsOutside_of_trimmed_append (x y : String)
    (hx : beginsWith isSpace x = false) (hy : startsOutside isSpace y = true) :
    startsOutside isSpace (x ++ y) = true := by
  unfold startsOutside beginsWith at *
  cases hd : x.data with
  | nil => simpa [hd] using hy
  | cons c cs => simpa [hd] using hx

theorem endsOutside_of_append_trimmed (x y : String)
    (hx : startsOutside isSpace x = true ∧ endsOutside isSpace x = true)
    (hy : endsWith isSpace y = false) :
    endsOutside isSpace (x ++ y) = true := by
  unfold endsOutside endsWith at *
  cases hd : y.data.getLast? with
  | none => simpa [hd] using hx.2
  | some c => simpa [hd] using hy

theorem trimmedText_iff (x : String) :
    trimmedText x = true ↔ beginsWith isSpace x = false ∧ endsWith isSpace x = false := by
  simp [trimmedText]

/-- Every line of a rendered stack with trimmed texts is non-empty and neither
begins nor ends with white space. -/
theorem mapLines_edges (m : StringsMap)
    (hm : (m.all fun e => trimmedText e.1 && e.2.all trimmedText) = true) :
    ∀ x ∈ mapLines m, startsOutside isSpace x = true ∧ endsOutside isSpace x = true := by
  induction m with
  | nil => intro x hx; simp [mapLines] at hx
  | cons e rest ih =>
    obtain ⟨target, chain⟩ := e
    simp only [List.all_cons, Bool.and_eq_true] at hm
    obtain ⟨⟨ht, hc⟩, hrest⟩ := hm
    intro x hx
    simp only [mapLines, List.cons_append, List.mem_cons, List.mem_append, List.mem_map] at hx
    rcases hx with rfl | ⟨y, hy, rfl⟩ | hx
    · exact ⟨startsOutside_of_trimmed_append target ":" ((trimmedText_iff _).mp ht).1
        (by decide), endsOutside_append _ _ _ (by decide)⟩
    · have hyt := (trimmedText_iff y).mp (List.all_eq_true.mp hc y hy)
      exact ⟨startsOutside_append _ _ _ (by decide),
        endsOutside_of_append_trimmed "...." y ⟨by decide, by decide⟩ hyt.2⟩
    · exact ih hrest x hx

theorem stackLines_edges (s : Stack) (hs : trimmedTexts s = true) :
    ∀ x ∈ stackLines s, startsOutside isSpace x = true ∧ endsOutside isSpace x = true := by
  induction s with
  | nil => intro x hx; simp [stackLines] at hx
  | cons l rest ih =>
    simp only [trimmedTexts, List.all_cons, Bool.and_eq_true] at hs
    intro x hx
    simp only [stackLines, List.mem_append] at hx
    rcases hx with hx | hx
    · exact mapLines_edges l hs.1 x hx
    · exact ih (by simpa [trimmedTexts] using hs.2) x hx

/-- With trimmed texts, `PrettyPrint` is the lines joined by newlines. -/
theorem PrettyPrint_eq_lines (s : Stack) (hs : trimmedTexts s = true) :
    Stack.PrettyPrint s = "\n".intercalate (stackLines s) := by
  have hedges := stackLines_edges s hs
  simp only [Stack.PrettyPrint, parsedTplExecute, execStack_eq]
  cases hl : stackLines s with
  | nil => rfl
  | cons x xs =>
    rw [hl] at hedges
    rw [← intercalate_append_sep "\n" (x :: xs) (by simp)]
    apply TrimSpace_append
    · exact head_of_startsOutside _ _
        (intercalate_starts _ _ _ _ (hedges x (List.mem_cons_self x xs)).1)
    · exact last_of_endsOutside _ _
        (intercalate_ends _ _ _ (by simp) (fun m hm => (hedges m hm).2))
    · decide

end tortilla

namespace tortilla

theorem stackLines_ne_nil (s : Stack) (hne : s ≠ []) (hsingle : singleEntries s = true) :
    stackLines s ≠ [] := by
  cases s with
  | nil => exact absurd rfl hne
  | cons l rest =>
    simp only [singleEntries, List.all_cons, Bool.and_eq_true, beq_iff_eq] at hsingle
    cases l with
    | nil => simp at hsingle
    | cons e es =>
      obtain ⟨target, chain⟩ := e
      simp [stackLines, mapLines]

theorem append_right_cancel (A B S : String) (h : A ++ S = B ++ S) : A = B := by
  apply String.ext
  have hd := congrArg String.data h
  simp only [String.data_append] at hd
  exact List.append_cancel_right hd

theorem intercalate_append (sep : String) (l1 l2 : List String) (h1 : l1 ≠ []) (h2 : l2 ≠ []) :
    sep.intercalate (l1 ++ l2) = sep.intercalate l1 ++ sep ++ sep.intercalate l2 := by
  apply append_right_cancel _ _ sep
  rw [intercalate_append_sep sep (l1 ++ l2) (by simp [h1]), catSep_append,
    ← intercalate_append_sep sep l1 h1, ← intercalate_append_sep sep l2 h2,
    String.append_assoc, String.append_assoc, String.append_assoc]

theorem not_newline_of_not_space (c : Char) (hc : isSpace c = false) : isNewline c = false := by
  simp only [isNewline, beq_eq_false_iff_ne]
  intro h
  rw [h] at hc
  exact absurd hc (by decide)

theorem joined_lines_edges (ls : List String) (hne : ls ≠ [])
    (h : ∀ x ∈ ls, startsOutside isSpace x = true ∧ endsOutside isSpace x = true) :
    beginsWith isNewline ("\n".intercalate ls) = false ∧
    endsWith isNewline ("\n".intercalate ls) = false ∧
    "\n".intercalate ls ≠ "" := by
  cases ls with
  | nil => exact absurd rfl hne
  | cons x xs =>
    have hs := intercalate_starts isSpace "\n" x xs (h x (List.mem_cons_self x xs)).1
    have he := intercalate_ends isSpace "\n" (x :: xs) (by simp) (fun m hm => (h m hm).2)
    refine ⟨?_, ?_, ?_⟩
    · unfold beginsWith
      cases hd : ("\n".intercalate (x :: xs)).data.head? with
      | none => rfl
      | some c => exact not_newline_of_not_space c (head_of_startsOutside _ _ hs c hd)
    · unfold endsWith
      cases hd : ("\n".intercalate (x :: xs)).data.getLast? with
      | none => rfl
      | some c => exact not_newline_of_not_space c (last_of_endsOutside _ _ he c hd)
    · intro hc
      rw [hc] at hs
      exact absurd hs (by decide)

/-- C16: for every non-empty rendered stack of single-entry mappings whose texts
neither begin nor end with white space, `PrettyPrint` returns the lines of the
stack joined by single newlines, with no trailing newline, and the result is not
empty; the lines are, for each layer in order, the key followed by a colon and
then four dots followed by the text for each chain text in stored order (a
layer with an empty chain gives its header line only). -/
theorem PrettyPrint_lines (s : Stack) (hne : s ≠ []) (hsingle : singleEntries s = true)
    (hs : trimmedTexts s = true) :
    Stack.PrettyPrint s = "\n".intercalate (stackLines s) ∧
    endsWith isNewline (Stack.PrettyPrint s) = false ∧
    Stack.PrettyPrint s ≠ "" := by
  have hj := joined_lines_edges (stackLines s) (stackLines_ne_nil s hne hsingle)
    (stackLines_edges s hs)
  rw [PrettyPrint_eq_lines s hs]
  exact ⟨rfl, hj.2.1, hj.2.2⟩

theorem PrettyPrint_lines_witness :
    expectedStack ≠ [] ∧ singleEntries expectedStack = true ∧
    trimmedTexts expectedStack = true ∧
    (Stack.PrettyPrint expectedStack = "\n".intercalate (stackLines expectedStack) ∧
      endsWith isNewline (Stack.PrettyPrint expectedStack) = false ∧
      Stack.PrettyPrint expectedStack ≠ "") ∧
    stackLines expectedStack =
      ["sixth:", "....seventh", "fifth:", "second:", "....fourth", "....third", "first:"] ∧
    Stack.PrettyPrint expectedStack =
      "sixth:\n....seventh\nfifth:\nsecond:\n....fourth\n....third\nfirst:" :=
  ⟨by decide, by decide, by decide,
    PrettyPrint_lines expectedStack (by decide) (by decide) (by decide), rfl, rfl⟩

/-- C17 (the claim as stated fails): the two layers of the stack of
`New(err).Wrap(wrappedWith)` are printed on consecutive lines, with no blank line
between them: the output is not the two printed layers with a blank line between. -/
theorem PrettyPrint_blank_line_counterexample :
    (tInitial.2.Wrap tInitial.1 wrappedWith).2.RollOut
        (tInitial.2.Wrap tInitial.1 wrappedWith).1 0 = .ok wrappedStack ∧
    Stack.PrettyPrint wrappedStack = "wrapping error:\ninitial error:" ∧
    Stack.PrettyPrint wrappedStack ≠
      Stack.PrettyPrint [[("wrapping error", [])]] ++ "\n\n" ++
        Stack.PrettyPrint [[("initial error", [])]] :=
  ⟨rfl, rfl, by decide⟩

/-- C17 (amended): in the output of `PrettyPrint` for a rendered stack made of two
non-empty parts (single-entry mappings, texts that neither begin nor end with
white space), the printed parts are separated by exactly one newline: the output
is the first part printed, a newline, and the second part printed, where the
first does not end and the second does not begin with a newline (so no blank
line stands between two layers), and the output has no trailing newline. -/
theorem PrettyPrint_append (s1 s2 : Stack) (h1 : s1 ≠ []) (h2 : s2 ≠ [])
    (hsingle1 : singleEntries s1 = true) (hsingle2 : singleEntries s2 = true)
    (ht1 : trimmedTexts s1 = true) (ht2 : trimmedTexts s2 = true) :
    Stack.PrettyPrint (s1 ++ s2) =
      Stack.PrettyPrint s1 ++ "\n" ++ Stack.PrettyPrint s2 ∧
    endsWith isNewline (Stack.PrettyPrint s1) = false ∧
    beginsWith isNewline (Stack.PrettyPrint s2) = false ∧
    endsWith isNewline (Stack.PrettyPrint (s1 ++ s2)) = false := by
  have ht : trimmedTexts (s1 ++ s2) = true := by
    simp only [trimmedTexts, List.all_append, Bool.and_eq_true] at ht1 ht2 ⊢
    exact ⟨ht1, ht2⟩
  have hl1 := stackLines_ne_nil s1 h1 hsingle1
  have hl2 := stackLines_ne_nil s2 h2 hsingle2
  have hj1 := joined_lines_edges (stackLines s1) hl1 (stackLines_edges s1 ht1)
  have hj2 := joined_lines_edges (stackLines s2) hl2 (stackLines_edges s2 ht2)
  have hj := joined_lines_edges (stackLines (s1 ++ s2))
    (by rw [stackLines_append]; simp [hl1]) (stackLines_edges (s1 ++ s2) ht)
  rw [PrettyPrint_eq_lines _ ht, PrettyPrint_eq_lines _ ht1, PrettyPrint_eq_lines _ ht2]
  refine ⟨?_, hj1.2.1, hj2.1, hj.2.1⟩
  rw [stackLines_append, intercalate_append "\n" _ _ hl1 hl2]

theorem PrettyPrint_append_witness :
    [[("wrapping error", ([] : List String))]] ≠ [] ∧
    [[("initial error", ([] : List String))]] ≠ [] ∧
    singleEntries [[("wrapping error", [])]] = true ∧
    singleEntries [[("initial error", [])]] = true ∧
    trimmedTexts [[("wrapping error", [])]] = true ∧
    trimmedTexts [[("initial error", [])]] = true ∧
    (Stack.PrettyPrint ([[("wrapping error", [])]] ++ [[("initial error", [])]]) =
        Stack.PrettyPrint [[("wrapping error", [])]] ++ "\n" ++
          Stack.PrettyPrint [[("initial error", [])]] ∧
      endsWith isNewline (Stack.PrettyPrint [[("wrapping error", [])]]) = false ∧
      beginsWith isNewline (Stack.PrettyPrint [[("initial error", [])]]) = false ∧
      endsWith isNewline
        (Stack.PrettyPrint ([[("wrapping error", [])]] ++ [[("initial error", [])]])) =
        false) :=
  ⟨by decide, by decide, by decide, by decide, by decide, by decide,
    PrettyPrint_append [[("wrapping error", [])]] [[("initial error", [])]]
      (by decide) (by decide) (by decide) (by decide) (by decide) (by decide)⟩

end tortilla

namespace tortilla

/-! ## At least one layer -/

theorem layersIn_Wrap (h : Heap) (s : Tortilla) (w : Err) :
    (s.Wrap h w).2.layersIn (s.Wrap h w).1 =
      { target := w, chain := [] } :: s.layersIn h := by
  simp [Tortilla.Wrap, Tortilla.appendLayer, Tortilla.layersIn, Heap.read_alloc_new]

theorem runCalls_layers (cs : List Call) :
    ∀ (h : Heap) (t : Tortilla), t.layersIn h ≠ [] →
      ∃ h' t', runCalls cs h t = .ok (h', t') ∧ t'.layersIn h' ≠ [] := by
  induction cs with
  | nil => intro h t ht; exact ⟨h, t, rfl, ht⟩
  | cons c cs ih =>
    intro h t ht
    cases c with
    | Wrap target =>
      simp only [runCalls]
      apply ih
      rw [layersIn_Wrap]
      simp
    | Add err =>
      cases hl : t.layersIn h with
      | nil => exact absurd hl ht
      | cons l0 rest =>
        obtain ⟨h1, hadd, hl1⟩ := Tortilla.Add_spec h t err l0 rest hl
        simp only [runCalls, hadd]
        apply ih
        rw [hl1]
        simp

end tortilla

namespace tortilla

theorem layersIn_New_ne_nil (h : Heap) (e : Err)
    (he : ∀ t, e = .tortilla t → t.layersIn h ≠ []) :
    (New h e).2.layersIn (New h e).1 ≠ [] := by
  cases e with
  | tortilla t => exact he t rfl
  | _ => rw [layersIn_New h _ (fun _ hc => Err.noConfusion hc)]; simp

/-- C18 (the claim as stated fails): `New` of the zero value `Tortilla{}`, passed
as an error, returns it as it is, with no layer; on that value `Unwrap` and `Add`
index an empty slice. -/
theorem New_zero_value_counterexample :
    (New Heap.empty (.tortilla { layers := none })).2.layersIn
        (New Heap.empty (.tortilla { layers := none })).1 = [] ∧
    (New Heap.empty (.tortilla { layers := none })).2.Unwrap
        (New Heap.empty (.tortilla { layers := none })).1 = .error .indexOutOfRange ∧
    (New Heap.empty (.tortilla { layers := none })).2.Add
        (New Heap.empty (.tortilla { layers := none })).1 second = .error .indexOutOfRange :=
  ⟨rfl, rfl, rfl⟩

/-- C18 (amended): for every error e that is not a `Tortilla` without layers, every
chain of `Wrap` and `Add` calls made on `New(e)` returns, and the value it
returns has at least one layer, so that `Unwrap` and `Add` on it return too (they
do not index an empty slice). -/
theorem runCalls_at_least_one_layer (h : Heap) (e : Err) (cs : List Call) (a : Err)
    (he : ∀ t, e = .tortilla t → t.layersIn h ≠ []) :
    ∃ h' t', runCalls cs (New h e).1 (New h e).2 = .ok (h', t') ∧
      t'.layersIn h' ≠ [] ∧ (∃ x, t'.Unwrap h' = .ok x) ∧ (∃ r, t'.Add h' a = .ok r) := by
  obtain ⟨h', t', hrun, hl⟩ := runCalls_layers cs (New h e).1 (New h e).2
    (layersIn_New_ne_nil h e he)
  refine ⟨h', t', hrun, hl, ?_, ?_⟩
  · cases hl2 : t'.layersIn h' with
    | nil => exact absurd hl2 hl
    | cons l0 rest => exact ⟨l0.target, by simp [Tortilla.Unwrap, hl2]⟩
  · cases hl2 : t'.layersIn h' with
    | nil => exact absurd hl2 hl
    | cons l0 rest =>
      obtain ⟨h1, hadd, _⟩ := Tortilla.Add_spec h' t' a l0 rest hl2
      exact ⟨_, hadd⟩

theorem runCalls_at_least_one_layer_witness :
    (∀ t, initialError = .tortilla t → t.layersIn Heap.empty ≠ []) ∧
    ∃ h' t', runCalls [.Wrap wrappedWith, .Add second] (New Heap.empty initialError).1
        (New Heap.empty initialError).2 = .ok (h', t') ∧
      t'.layersIn h' ≠ [] ∧ (∃ x, t'.Unwrap h' = .ok x) ∧
      (∃ r, t'.Add h' (.errorString 4 "third") = .ok r) :=
  ⟨fun _ hc => Err.noConfusion hc,
    runCalls_at_least_one_layer Heap.empty initialError [.Wrap wrappedWith, .Add second]
      (.errorString 4 "third") (fun _ hc => Err.noConfusion hc)⟩

end tortilla

namespace tortilla

/-! ## Independence of the storage of `Wrap` -/

theorem foldlM_congr {α β : Type} (f g : β → α → Except Fault β) (l : List α)
    (hfg : ∀ x ∈ l, ∀ b, f b x = g b x) :
    ∀ init, l.foldlM f init = l.foldlM g init := by
  induction l with
  | nil => intro init; rfl
  | cons x xs ih =>
    intro init
    rw [List.foldlM_cons, List.foldlM_cons, hfg x (List.mem_cons_self x xs) init]
    cases g init x with
    | error f => rfl
    | ok b => exact ih (fun y hy => hfg y (List.mem_cons_of_mem x hy)) b

theorem buildChainMsg_congr (E E' : Err → Except Fault String) (chain : List Err)
    (hE : ∀ e ∈ chain, E' e = E e) : buildChainMsg E' chain = buildChainMsg E chain := by
  unfold buildChainMsg
  rw [foldlM_congr _ (fun msg err => do return msg ++ (← E err) ++ ", ") chain
    (fun e he b => by simp only [hE e he])]

theorem buildLayerMsg_congr (E E' : Err → Except Fault String) (l : layer)
    (hT : E' l.target = E l.target) (hE : ∀ e ∈ l.chain, E' e = E e) :
    buildLayerMsg E' l = buildLayerMsg E l := by
  unfold buildLayerMsg
  rw [hT, buildChainMsg_congr E E' l.chain hE]

theorem flatten_congr (E E' : Err → Except Fault String) (layers : List layer)
    (hT : ∀ l ∈ layers, E' l.target = E l.target)
    (hE : ∀ l ∈ layers, ∀ e ∈ l.chain, E' e = E e) :
    flatten E' layers = flatten E layers := by
  unfold flatten
  rw [foldlM_congr _ (fun msg l => do return msg ++ (← buildLayerMsg E l)) layers
    (fun l hl b => by simp only [buildLayerMsg_congr E E' l (hT l hl) (hE l hl)])]

theorem layer.pointsBelow_iff (n : Nat) (l : layer) :
    l.pointsBelow n = true ↔
      l.target.pointsBelow n = true ∧ ∀ e ∈ l.chain, e.pointsBelow n = true := by
  simp [layer.pointsBelow, List.all_eq_true]

/-- The text of an error is the same in two heaps that hold the same arrays below
an address, when the error and those arrays point below that address only. -/
theorem Err.Error_agree (N : Nat) (h h' : Heap)
    (hagree : ∀ a, a < N → h'.read a = h.read a)
    (hclosed : ∀ a, a < N → ∀ l ∈ h.read a, l.pointsBelow N = true) :
    ∀ (n : Nat) (e : Err), e.pointsBelow N = true → Err.Error h' n e = Err.Error h n e := by
  intro n
  induction n with
  | zero =>
    intro e _
    cases e <;> rfl
  | succ n ih =>
    intro e he
    cases e with
    | errorString p s => rfl
    | wrapError p m inner => rfl
    | valueError p m => rfl
    | isError p m sentinel => rfl
    | joinError p m e1 e2 => rfl
    | tortilla t =>
      obtain ⟨ls⟩ := t
      cases ls with
      | none => rfl
      | some a =>
        have ha : a < N := by simpa [Err.pointsBelow] using he
        simp only [Err.Error, Tortilla.layersIn, hagree a ha]
        apply flatten_congr
        · intro l hl
          exact ih _ ((layer.pointsBelow_iff N l).mp (hclosed a ha l hl)).1
        · intro l hl e hel
          exact ih _ (((layer.pointsBelow_iff N l).mp (hclosed a ha l hl)).2 e hel)

theorem Heap.closed_read (h : Heap) (hc : h.closed = true) :
    ∀ a, a < h.arrays.length → ∀ l ∈ h.read a, l.pointsBelow h.arrays.length = true := by
  intro a ha l hl
  simp only [Heap.closed, List.all_eq_true] at hc
  have hmem : h.read a ∈ h.arrays := by
    simp only [Heap.read, List.getD_eq_getElem?_getD, List.getElem?_eq_getElem ha,
      Option.getD_some]
    exact List.getElem_mem ha
  exact hc (h.read a) hmem l hl

theorem RollOut_congr (h h' : Heap) (n : Nat) (t : Tortilla)
    (hl : t.layersIn h' = t.layersIn h)
    (hT : ∀ l ∈ t.layersIn h, Err.Error h' n l.target = Err.Error h n l.target)
    (hE : ∀ l ∈ t.layersIn h, ∀ e ∈ l.chain, Err.Error h' n e = Err.Error h n e) :
    t.RollOut h' n = t.RollOut h n := by
  unfold Tortilla.RollOut
  rw [hl]
  rw [foldlM_congr _ (fun (s : Stack) l => do
      let c ← l.chain.foldlM (fun (c : List String) e => do
        return c ++ [← Err.Error h n e]) []
      let layer : StringsMap := [(← Err.Error h n l.target, c)]
      return s ++ [layer]) (t.layersIn h)
    (fun l hl b => by
      simp only [hT l hl]
      rw [foldlM_congr _ (fun (c : List String) e => do
        return c ++ [← Err.Error h n e]) l.chain
        (fun e he b => by simp only [hE l hl e he])])]

end tortilla

namespace tortilla

/-- After `s2 := s1.Wrap(w)` and `s2.Add(x)` every backing array that existed
before the two calls holds what it held. -/
theorem Wrap_Add_agree (h : Heap) (s1 : Tortilla) (w x : Err) :
    ∃ h3 s3, (s1.Wrap h w).2.Add (s1.Wrap h w).1 x = .ok (h3, s3) ∧
      ∀ a, a < h.arrays.length → h3.read a = h.read a := by
  obtain ⟨p, hp, _, hadd⟩ := Tortilla.Add_returns (s1.Wrap h w).1 (s1.Wrap h w).2 x _ _
    (layersIn_Wrap h s1 w)
  refine ⟨_, _, hadd, ?_⟩
  intro a ha
  have hpN : p = h.arrays.length := by
    simp only [Tortilla.Wrap, Tortilla.appendLayer, Heap.alloc, Option.some.injEq] at hp
    exact hp.symm
  have hne : p ≠ a := by omega
  rw [Heap.read_write_other _ p a _ hne]
  exact Heap.read_alloc_old h _ a ha

/-- C19: for every `Tortilla` s1 and errors w and x (in a heap without dangling
pointers), after `s2 := Wrap(s1, w)` and `s3 := Add(s2, x)` the layers of s1,
its `Error()` text and its `RollOut` are what they were before the two calls: the
`Add` on the wrapped value writes into the array `Wrap` allocated. -/
theorem Wrap_Add_independent (h : Heap) (n : Nat) (s1 : Tortilla) (w x : Err)
    (hclosed : h.closed = true) (hvalid : s1.valid h = true) :
    ∃ h3 s3, (s1.Wrap h w).2.Add (s1.Wrap h w).1 x = .ok (h3, s3) ∧
      s1.layersIn h3 = s1.layersIn h ∧
      s1.Error h3 n = s1.Error h n ∧
      s1.RollOut h3 n = s1.RollOut h n := by
  obtain ⟨h3, s3, hadd, hagree⟩ := Wrap_Add_agree h s1 w x
  have hcl := Heap.closed_read h hclosed
  have hErr := Err.Error_agree h.arrays.length h h3 hagree hcl n
  have hl : s1.layersIn h3 = s1.layersIn h := by
    obtain ⟨ls⟩ := s1
    cases ls with
    | none => rfl
    | some a =>
      have ha : a < h.arrays.length := by simpa [Tortilla.valid] using hvalid
      simp only [Tortilla.layersIn, hagree a ha]
  have hbelow : ∀ l ∈ s1.layersIn h, l.pointsBelow h.arrays.length = true := by
    obtain ⟨ls⟩ := s1
    cases ls with
    | none => intro l hl; simp [Tortilla.layersIn] at hl
    | some a =>
      have ha : a < h.arrays.length := by simpa [Tortilla.valid] using hvalid
      exact hcl a ha
  have hT : ∀ l ∈ s1.layersIn h, Err.Error h3 n l.target = Err.Error h n l.target :=
    fun l hl => hErr _ ((layer.pointsBelow_iff _ l).mp (hbelow l hl)).1
  have hE : ∀ l ∈ s1.layersIn h, ∀ e ∈ l.chain, Err.Error h3 n e = Err.Error h n e :=
    fun l hl e he => hErr _ (((layer.pointsBelow_iff _ l).mp (hbelow l hl)).2 e he)
  refine ⟨h3, s3, hadd, hl, ?_, RollOut_congr h h3 n s1 hl hT hE⟩
  rw [Tortilla.Error, Tortilla.Error, hl]
  exact flatten_congr _ _ _ hT hE

theorem Wrap_Add_independent_witness :
    tInitial.1.closed = true ∧ tInitial.2.valid tInitial.1 = true ∧
    (∃ h3 s3, (tInitial.2.Wrap tInitial.1 wrappedWith).2.Add
        (tInitial.2.Wrap tInitial.1 wrappedWith).1 second = .ok (h3, s3) ∧
      tInitial.2.layersIn h3 = tInitial.2.layersIn tInitial.1 ∧
      tInitial.2.Error h3 0 = tInitial.2.Error tInitial.1 0 ∧
      tInitial.2.RollOut h3 0 = tInitial.2.RollOut tInitial.1 0) ∧
    (∃ r, (tInitial.2.Wrap tInitial.1 wrappedWith).2.Add
        (tInitial.2.Wrap tInitial.1 wrappedWith).1 second = .ok r ∧
      r.2.Error r.1 0 = .ok "wrapping error: second. initial error." ∧
      tInitial.2.Error r.1 0 = .ok "initial error.") :=
  ⟨by decide, by decide,
    Wrap_Add_independent tInitial.1 0 tInitial.2 wrappedWith second (by decide) (by decide),
    _, rfl, rfl, rfl⟩

end tortilla

namespace tortilla

/-! ## A value added to itself -/

/-- When the `Error()` call on a chain entry of a layer does not return, neither
does `Error()` on a value holding that layer in front. -/
theorem flatten_fault (E : Err → Except Fault String) (l0 : layer) (rest : List layer)
    (m : String) (hT : E l0.target = .ok m) (pre : List Err) (e : Err) (post : List Err)
    (hc : l0.chain = pre ++ e :: post) (M : Err → String)
    (hpre : ∀ x ∈ pre, E x = .ok (M x)) (f : Fault) (he : E e = .error f) :
    flatten E (l0 :: rest) = .error f := by
  have hchain : buildChainMsg E l0.chain = .error f := by
    unfold buildChainMsg
    rw [hc, List.foldlM_append,
      foldlM_ok _ (fun msg err => msg ++ M err ++ ", ") pre
        (fun x hx b => by simp [hpre x hx, bind, Except.bind, pure, Except.pure]) ""]
    simp [List.foldlM_cons, he, bind, Except.bind]
  have hlayer : buildLayerMsg E l0 = .error f := by
    simp [buildLayerMsg, hT, hchain, bind, Except.bind]
  simp [flatten, List.foldlM_cons, hlayer, bind, Except.bind]

/-- When the `Error()` call on a chain entry of the front layer does not return,
neither does `RollOut`. -/
theorem RollOut_fault (h : Heap) (n : Nat) (t : Tortilla) (l0 : layer) (rest : List layer)
    (hl : t.layersIn h = l0 :: rest) (pre : List Err) (e : Err) (post : List Err)
    (hc : l0.chain = pre ++ e :: post) (M : Err → String)
    (hpre : ∀ x ∈ pre, Err.Error h n x = .ok (M x)) (f : Fault)
    (he : Err.Error h n e = .error f) :
    t.RollOut h n = .error f := by
  unfold Tortilla.RollOut
  rw [hl, List.foldlM_cons, hc, List.foldlM_append,
    foldlM_ok _ (fun c x => c ++ [M x]) pre
      (fun x hx b => by simp [hpre x hx, bind, Except.bind, pure, Except.pure]) []]
  simp [List.foldlM_cons, he, bind, Except.bind]

/-- `Error()` on the value that was added to itself returns for no budget. -/
theorem Error_tSelfAdded (n : Nat) :
    Err.Error tSelfAdded.1 n (.tortilla tSelfAdded.2) = .error .outOfFuel := by
  induction n with
  | zero => rfl
  | succ n ih =>
    show flatten (Err.Error tSelfAdded.1 n) (tSelfAdded.2.layersIn tSelfAdded.1) = _
    exact flatten_fault _ { target := initialError, chain := [.tortilla tSelfAdded.2] } []
      "initial error" (Err.Error_plain _ n initialError (fun _ hc => Err.noConfusion hc))
      [] (.tortilla tSelfAdded.2) [] rfl Err.msg (fun x hx => by simp at hx) _ ih

/-- `Error()` on the value that was added to itself and then given a second chain
entry returns for no budget. -/
theorem Error_tSelfAddedTwice (n : Nat) :
    Err.Error tSelfAddedTwice.1 n (.tortilla tSelfAddedTwice.2) = .error .outOfFuel := by
  induction n with
  | zero => rfl
  | succ n ih =>
    show flatten (Err.Error tSelfAddedTwice.1 n)
      (tSelfAddedTwice.2.layersIn tSelfAddedTwice.1) = _
    exact flatten_fault _
      { target := initialError, chain := [second, .tortilla tSelfAddedTwice.2] } []
      "initial error" (Err.Error_plain _ n initialError (fun _ hc => Err.noConfusion hc))
      [second] (.tortilla tSelfAddedTwice.2) [] rfl Err.msg
      (fun x hx => by
        have hx2 : x = second := by simpa using hx
        rw [hx2]
        exact Err.Error_plain _ n second (fun _ hc => Err.noConfusion hc)) _ ih

/-- C14 (the code against the claim): after `s := New(err); s = s.Add(s)` the
value s has one layer, whose chain holds s itself through the shared backing
array, and `RollOut(s)` returns for no budget: it asks the chain entry for its
message, which asks its own chain entry, without end. -/
theorem RollOut_self_added :
    tInitial.2.Add tInitial.1 (.tortilla tInitial.2) = .ok tSelfAdded ∧
    tSelfAdded.2.layersIn tSelfAdded.1 =
      [{ target := initialError, chain := [.tortilla tSelfAdded.2] }] ∧
    ∀ n, tSelfAdded.2.RollOut tSelfAdded.1 n = .error .outOfFuel :=
  ⟨rfl, rfl, fun n =>
    RollOut_fault tSelfAdded.1 n tSelfAdded.2
      { target := initialError, chain := [.tortilla tSelfAdded.2] } [] rfl
      [] (.tortilla tSelfAdded.2) [] rfl Err.msg (fun x hx => by simp at hx) _
      (Error_tSelfAdded n)⟩

/-- C15 (the code against the claim): with s := New(err), a := s and b := second,
both calls of `Add(Add(s, a), b)` return and the front chain is stored as b, a,
but `RollOut` of the result returns for no budget, so it has no front mapping:
the chain entry a is the value itself, whose message is never computed. -/
theorem RollOut_Add_Add_self :
    tInitial.2.Add tInitial.1 (.tortilla tInitial.2) = .ok tSelfAdded ∧
    tSelfAdded.2.Add tSelfAdded.1 second = .ok tSelfAddedTwice ∧
    tSelfAddedTwice.2.layersIn tSelfAddedTwice.1 =
      [{ target := initialError, chain := [second, .tortilla tInitial.2] }] ∧
    ∀ n, tSelfAddedTwice.2.RollOut tSelfAddedTwice.1 n = .error .outOfFuel :=
  ⟨rfl, rfl, rfl, fun n =>
    RollOut_fault tSelfAddedTwice.1 n tSelfAddedTwice.2
      { target := initialError, chain := [second, .tortilla tSelfAddedTwice.2] } [] rfl
      [second] (.tortilla tSelfAddedTwice.2) [] rfl Err.msg
      (fun x hx => by
        have hx2 : x = second := by simpa using hx
        rw [hx2]
        exact Err.Error_plain _ n second (fun _ hc => Err.noConfusion hc)) _
      (Error_tSelfAddedTwice n)⟩

end tortilla
